import Mathlib

/-!
Verification of the qr encoder crate (`lib.rs` facade plus its encoder
modules).  The facade `lib.rs` is translated directly from the source; the
encoder modules (`types`, `bits`, `optimize`, `ec`, `canvas`, `render`,
`matrix`) are declared in `lib.rs` but their sources are not part of the
repository snapshot, so they are modelled from the specification
(segmentation, bit assembly, Reed-Solomon coding, canvas layout, masking,
format information), faithful to ISO/IEC 18004 as the specification
prescribes.
-/

set_option maxRecDepth 100000

namespace QrSpec

/-- Modelled from the spec: `Color` from the missing `types` module.  The
public color of a module; the functional tint lives on the canvas only. -/
inductive Color where
  | light
  | dark
deriving DecidableEq, Repr, Inhabited

/-- Modelled from the spec: `EcLevel` from the missing `types` module, with
numeric rank L < M < Q < H. -/
inductive EcLevel where
  | L
  | M
  | Q
  | H
deriving DecidableEq, Repr, Inhabited

/-- Numeric rank of an error-correction level (L=0, M=1, Q=2, H=3). -/
def EcLevel.num : EcLevel → Nat
  | .L => 0
  | .M => 1
  | .Q => 2
  | .H => 3

/-- Modelled from the spec: `Version` from the missing `types` module,
tagged `Normal(1..=40)` or `Micro(1..=4)`. -/
inductive Version where
  | normal (n : Nat)
  | micro (n : Nat)
deriving DecidableEq, Repr, Inhabited

/-- Modelled from the spec: `Version::width` — Normal n is 17+4n modules
wide, Micro n is 9+2n. -/
def Version.width : Version → Nat
  | .normal n => 4 * n + 17
  | .micro n => 2 * n + 9

/-- Modelled from the spec: `Version::is_micro`. -/
def Version.is_micro : Version → Bool
  | .normal _ => false
  | .micro _ => true

/-- Modelled from the spec: the error taxonomy (`QrError` in the missing
`types` module). -/
inductive QrError where
  | dataTooLong
  | invalidVersion
  | unsupportedCharacterSet
  | invalidEciDesignator
  | invalidCharacter
deriving DecidableEq, Repr, Inhabited

/-- `QrResult` from the missing `types` module: a fallible result. -/
abbrev QrResult (α : Type) := Except QrError α

instance {ε α : Type} [DecidableEq ε] [DecidableEq α] :
    DecidableEq (Except ε α) := fun
  | .ok a, .ok b =>
    if h : a = b then .isTrue (by rw [h])
    else .isFalse (by intro hc; cases hc; exact h rfl)
  | .ok _, .error _ => .isFalse (by intro hc; cases hc)
  | .error _, .ok _ => .isFalse (by intro hc; cases hc)
  | .error a, .error b =>
    if h : a = b then .isTrue (by rw [h])
    else .isFalse (by intro hc; cases hc; exact h rfl)

/-- Modelled from the spec: `Mode` from the missing `types` module. -/
inductive Mode where
  | numeric
  | alphanumeric
  | byte
  | kanji
deriving DecidableEq, Repr, Inhabited

/-- Modelled from the spec: the character-count-indicator bit widths, which
differ between Normal and Micro and across version bands (1-9, 10-26,
27-40), per the ISO tables. -/
def Mode.length_bits_count (m : Mode) (v : Version) : Nat :=
  match v with
  | .micro a =>
    match m with
    | .numeric => 2 + a
    | .alphanumeric => 1 + a
    | .byte => 1 + a
    | .kanji => a
  | .normal n =>
    if n ≤ 9 then
      match m with
      | .numeric => 10
      | .alphanumeric => 9
      | .byte => 8
      | .kanji => 8
    else if n ≤ 26 then
      match m with
      | .numeric => 12
      | .alphanumeric => 11
      | .byte => 16
      | .kanji => 10
    else
      match m with
      | .numeric => 14
      | .alphanumeric => 13
      | .byte => 16
      | .kanji => 12

/-- Modelled from the spec: the per-mode data bit cost — Numeric packs 10
bits per 3 chars (7 for a trailing pair, 4 for a single), Alphanumeric 11
bits per 2 chars (6 for a single), Byte 8 bits per char, Kanji 13. -/
def Mode.data_bits_count (m : Mode) (len : Nat) : Nat :=
  match m with
  | .numeric => (len * 10 + 2) / 3
  | .alphanumeric => (len * 11 + 1) / 2
  | .byte => len * 8
  | .kanji => len * 13

/-- Modelled from the spec: the width of the mode indicator — 4 bits for
Normal versions, and 0/1/2/3 bits for Micro versions 1 to 4. -/
def Version.mode_bits_count : Version → Nat
  | .normal _ => 4
  | .micro a => a - 1

/-- Modelled from the spec: the mode join used when merging adjacent
segments — the weaker (more general) of two modes.  Numeric ⊂ Alphanumeric
⊂ Byte; Kanji generalises only to Byte. -/
def Mode.join (a b : Mode) : Mode :=
  match a, b with
  | .numeric, .numeric => .numeric
  | .numeric, .alphanumeric | .alphanumeric, .numeric
  | .alphanumeric, .alphanumeric => .alphanumeric
  | .kanji, .kanji => .kanji
  | _, _ => .byte

/-! ## Static tables (modelled from the spec and the ISO tables it cites) -/

/-- Modelled from the spec: the block-layout table for Normal versions,
one row per version `1..=40`, one entry per ec level (L, M, Q, H).  Each
entry is `(size1, count1, size2, count2)`: `count1` blocks of `size1` data
codewords followed by `count2` blocks of `size2 = size1 + 1`. -/
def dataBytesPerBlockNormal : List (List (Nat × Nat × Nat × Nat)) :=
  [ [(19,1,0,0), (16,1,0,0), (13,1,0,0), (9,1,0,0)],
    [(34,1,0,0), (28,1,0,0), (22,1,0,0), (16,1,0,0)],
    [(55,1,0,0), (44,1,0,0), (17,2,0,0), (13,2,0,0)],
    [(80,1,0,0), (32,2,0,0), (24,2,0,0), (9,4,0,0)],
    [(108,1,0,0), (43,2,0,0), (15,2,16,2), (11,2,12,2)],
    [(68,2,0,0), (27,4,0,0), (19,4,0,0), (15,4,0,0)],
    [(78,2,0,0), (31,4,0,0), (14,2,15,4), (13,4,14,1)],
    [(97,2,0,0), (38,2,39,2), (18,4,19,2), (14,4,15,2)],
    [(116,2,0,0), (36,3,37,2), (16,4,17,4), (12,4,13,4)],
    [(68,2,69,2), (43,4,44,1), (19,6,20,2), (15,6,16,2)],
    [(81,4,0,0), (50,1,51,4), (22,4,23,4), (12,3,13,8)],
    [(92,2,93,2), (36,6,37,2), (20,4,21,6), (14,7,15,4)],
    [(107,4,0,0), (37,8,38,1), (20,8,21,4), (11,12,12,4)],
    [(115,3,116,1), (40,4,41,5), (16,11,17,5), (12,11,13,5)],
    [(87,5,88,1), (41,5,42,5), (24,5,25,7), (12,11,13,7)],
    [(98,5,99,1), (45,7,46,3), (19,15,20,2), (15,3,16,13)],
    [(107,1,108,5), (46,10,47,1), (22,1,23,15), (14,2,15,17)],
    [(120,5,121,1), (43,9,44,4), (22,17,23,1), (14,2,15,19)],
    [(113,3,114,4), (44,3,45,11), (21,17,22,4), (13,9,14,16)],
    [(107,3,108,5), (41,3,42,13), (24,15,25,5), (15,15,16,10)],
    [(116,4,117,4), (42,17,0,0), (22,17,23,6), (16,19,17,6)],
    [(111,2,112,7), (46,17,0,0), (24,7,25,16), (13,34,0,0)],
    [(121,4,122,5), (47,4,48,14), (24,11,25,14), (15,16,16,14)],
    [(117,6,118,4), (45,6,46,14), (24,11,25,16), (16,30,17,2)],
    [(106,8,107,4), (47,8,48,13), (24,7,25,22), (15,22,16,13)],
    [(114,10,115,2), (46,19,47,4), (22,28,23,6), (16,33,17,4)],
    [(122,8,123,4), (45,22,46,3), (23,8,24,26), (15,12,16,28)],
    [(117,3,118,10), (45,3,46,23), (24,4,25,31), (15,11,16,31)],
    [(116,7,117,7), (45,21,46,7), (23,1,24,37), (15,19,16,26)],
    [(115,5,116,10), (47,19,48,10), (24,15,25,25), (15,23,16,25)],
    [(115,13,116,3), (46,2,47,29), (24,42,25,1), (15,23,16,28)],
    [(115,17,0,0), (46,10,47,23), (24,10,25,35), (15,19,16,35)],
    [(115,17,116,1), (46,14,47,21), (24,29,25,19), (15,11,16,46)],
    [(115,13,116,6), (46,14,47,23), (24,44,25,7), (16,59,17,1)],
    [(121,12,122,7), (47,12,48,26), (24,39,25,14), (15,22,16,41)],
    [(121,6,122,14), (47,6,48,34), (24,46,25,10), (15,2,16,64)],
    [(122,17,123,4), (46,29,47,14), (24,49,25,10), (15,24,16,46)],
    [(122,4,123,18), (46,13,47,32), (24,48,25,14), (15,42,16,32)],
    [(117,20,118,4), (47,40,48,7), (24,43,25,22), (15,10,16,67)],
    [(118,19,119,6), (47,18,48,31), (24,34,25,34), (15,20,16,61)] ]

/-- Modelled from the spec: the block-layout table for Micro versions
`1..=4`; a zero entry marks an illegal `(version, ec_level)` pair. -/
def dataBytesPerBlockMicro : List (List (Nat × Nat × Nat × Nat)) :=
  [ [(3,1,0,0), (0,0,0,0), (0,0,0,0), (0,0,0,0)],
    [(5,1,0,0), (4,1,0,0), (0,0,0,0), (0,0,0,0)],
    [(11,1,0,0), (9,1,0,0), (0,0,0,0), (0,0,0,0)],
    [(16,1,0,0), (14,1,0,0), (10,1,0,0), (0,0,0,0)] ]

/-- Modelled from the spec: table lookup for the block layout keyed by
`(version, ec_level)`; an unsupported combination yields `InvalidVersion`
(spec: the `(version, ec_level)` pair must appear in the block table). -/
def fetchDataBytesPerBlock (v : Version) (e : EcLevel) :
    QrResult (Nat × Nat × Nat × Nat) :=
  match v with
  | .normal n =>
    if 1 ≤ n ∧ n ≤ 40 then
      .ok (((dataBytesPerBlockNormal.getD (n - 1) []).getD e.num (0,0,0,0)))
    else .error .invalidVersion
  | .micro n =>
    if 1 ≤ n ∧ n ≤ 4 then
      let entry := (dataBytesPerBlockMicro.getD (n - 1) []).getD e.num (0,0,0,0)
      if entry = (0,0,0,0) then .error .invalidVersion else .ok entry
    else .error .invalidVersion

/-- Modelled from the spec: error-correction codewords per block for Normal
versions (rows `1..=40`, columns L, M, Q, H). -/
def ecBytesPerBlockNormal : List (List Nat) :=
  [ [7,10,13,17], [10,16,22,28], [15,26,18,22], [20,18,26,16],
    [26,24,18,22], [18,16,24,28], [20,18,18,26], [24,22,22,26],
    [30,22,20,24], [18,26,24,28], [20,30,28,24], [24,22,26,28],
    [26,22,24,22], [30,24,20,24], [22,24,30,24], [24,28,24,30],
    [28,28,28,28], [30,26,28,28], [28,26,26,26], [28,26,30,28],
    [28,26,28,30], [28,28,30,24], [30,28,30,30], [30,28,30,30],
    [26,28,30,30], [28,28,28,30], [30,28,30,30], [30,28,30,30],
    [30,28,30,30], [30,28,30,30], [30,28,30,30], [30,28,30,30],
    [30,28,30,30], [30,28,30,30], [30,28,30,30], [30,28,30,30],
    [30,28,30,30], [30,28,30,30], [30,28,30,30], [30,28,30,30] ]

/-- Modelled from the spec: error-correction codewords per block for Micro
versions (rows `1..=4`); zero marks an illegal pair. -/
def ecBytesPerBlockMicro : List (List Nat) :=
  [ [2,0,0,0], [5,6,0,0], [6,8,0,0], [8,10,14,0] ]

/-- Modelled from the spec: table lookup for error-correction codewords per
block keyed by `(version, ec_level)`. -/
def fetchEcBytesPerBlock (v : Version) (e : EcLevel) : QrResult Nat :=
  match v with
  | .normal n =>
    if 1 ≤ n ∧ n ≤ 40 then
      .ok ((ecBytesPerBlockNormal.getD (n - 1) []).getD e.num 0)
    else .error .invalidVersion
  | .micro n =>
    if 1 ≤ n ∧ n ≤ 4 then
      let entry := (ecBytesPerBlockMicro.getD (n - 1) []).getD e.num 0
      if entry = 0 then .error .invalidVersion else .ok entry
    else .error .invalidVersion

/-- Modelled from the spec: data capacities in bits for Micro versions
(rows `1..=4`, columns L, M, Q, H); zero marks an illegal pair.  Micro 1
supports only the "no EC" mapping exposed through `EcLevel::L`. -/
def dataLengthsMicro : List (List Nat) :=
  [ [20,0,0,0], [40,32,0,0], [84,68,0,0], [128,112,80,0] ]

/-- Modelled from the spec: the data-codeword bit budget for a
`(version, ec_level)` pair.  Normal versions derive it from the block
table (8 bits per data codeword); Micro versions use the bit table above
because their final data codeword may be 4 bits. -/
def dataLengths (v : Version) (e : EcLevel) : QrResult Nat :=
  match v with
  | .normal _ => do
    let (s1, c1, s2, c2) ← fetchDataBytesPerBlock v e
    pure ((s1 * c1 + s2 * c2) * 8)
  | .micro n =>
    if 1 ≤ n ∧ n ≤ 4 then
      let entry := (dataLengthsMicro.getD (n - 1) []).getD e.num 0
      if entry = 0 then .error .invalidVersion else .ok entry
    else .error .invalidVersion

/-! ## Bit writer (modelled from the spec's `Bits` component) -/

/-- The low `n` bits of `val`, most significant first. -/
def natBits (n val : Nat) : List Bool :=
  (List.range n).map (fun i => ((val >>> (n - 1 - i)) % 2) = 1)

/-- Modelled from the spec: the append-only bit buffer `Bits` tied to a
`Version` (missing `bits` module).  Bits are kept most-significant-first. -/
structure Bits where
  version : Version
  bits : List Bool
deriving DecidableEq, Repr

/-- `Bits::new`: an empty buffer for the version. -/
def Bits.new (v : Version) : Bits := ⟨v, []⟩

/-- `Bits::len`: current length in bits. -/
def Bits.len (b : Bits) : Nat := b.bits.length

/-- `Bits::push_number`: append the low `n` bits of `val`, big-endian. -/
def Bits.push_number (b : Bits) (n val : Nat) : Bits :=
  { b with bits := b.bits ++ natBits n val }

/-- `Bits::push_number_checked`: as `push_number` but fails with
`DataTooLong` when `val` does not fit in `n` bits. -/
def Bits.push_number_checked (b : Bits) (n val : Nat) : QrResult Bits :=
  if val < 2 ^ n then .ok (b.push_number n val) else .error .dataTooLong

/-- Modelled from the spec: the mode indicator — 4 bits on Normal versions
(Numeric 1, Alphanumeric 2, Byte 4, Kanji 8), variable width on Micro
versions; a mode a Micro version cannot express is rejected with
`UnsupportedCharacterSet`. -/
def Bits.push_mode_indicator (b : Bits) (m : Mode) : QrResult Bits :=
  match b.version, m with
  | .micro 1, .numeric => .ok b
  | .micro 2, .numeric => .ok (b.push_number 1 0)
  | .micro 2, .alphanumeric => .ok (b.push_number 1 1)
  | .micro 3, .numeric => .ok (b.push_number 2 0)
  | .micro 3, .alphanumeric => .ok (b.push_number 2 1)
  | .micro 3, .byte => .ok (b.push_number 2 2)
  | .micro 3, .kanji => .ok (b.push_number 2 3)
  | .micro 4, .numeric => .ok (b.push_number 3 0)
  | .micro 4, .alphanumeric => .ok (b.push_number 3 1)
  | .micro 4, .byte => .ok (b.push_number 3 2)
  | .micro 4, .kanji => .ok (b.push_number 3 3)
  | .normal _, .numeric => .ok (b.push_number 4 1)
  | .normal _, .alphanumeric => .ok (b.push_number 4 2)
  | .normal _, .byte => .ok (b.push_number 4 4)
  | .normal _, .kanji => .ok (b.push_number 4 8)
  | _, _ => .error .unsupportedCharacterSet

/-- `Bits::push_header`: mode indicator followed by the character count in
the mode's version-band-specific indicator width. -/
def Bits.push_header (b : Bits) (m : Mode) (raw_data_len : Nat) :
    QrResult Bits := do
  let b ← b.push_mode_indicator m
  b.push_number_checked (m.length_bits_count b.version) raw_data_len

/-- Fuelled worker for `chunksOf` (structural recursion on the fuel so
that evaluation reduces inside the kernel). -/
def chunksOfGo (k : Nat) : Nat → List α → List (List α)
  | 0, _ => []
  | _, [] => []
  | fuel + 1, l => l.take k :: chunksOfGo k fuel (l.drop k)

/-- Split a list into chunks of at most `k` elements (`k > 0`). -/
def chunksOf (k : Nat) (l : List α) : List (List α) :=
  chunksOfGo k l.length l

/-- Is the byte an ASCII decimal digit? -/
def isDigitByte (b : Nat) : Bool := 48 ≤ b && b ≤ 57

/-- The alphanumeric value of a byte, or none if the byte is not in the
alphanumeric charset (digits, upper-case letters, space $%*+-./:). -/
def alnumValue (b : Nat) : Option Nat :=
  if 48 ≤ b && b ≤ 57 then some (b - 48)
  else if 65 ≤ b && b ≤ 90 then some (b - 55)
  else if b = 32 then some 36
  else if b = 36 then some 37
  else if b = 37 then some 38
  else if b = 42 then some 39
  else if b = 43 then some 40
  else if b = 45 then some 41
  else if b = 46 then some 42
  else if b = 47 then some 43
  else if b = 58 then some 44
  else none

/-- `Bits::push_numeric_data`: header then digit triples as 10 bits, a
trailing pair as 7 bits, a trailing single digit as 4 bits. -/
def Bits.push_numeric_data (b : Bits) (data : List Nat) : QrResult Bits := do
  let b ← b.push_header .numeric data.length
  let chunks := chunksOf 3 data
  pure (chunks.foldl
    (fun acc chunk =>
      let value := chunk.foldl (fun a d => a * 10 + (d - 48)) 0
      acc.push_number (chunk.length * 3 + 1) value)
    b)

/-- `Bits::push_alphanumeric_data`: header then character pairs as 11 bits
(45·first + second), a trailing single as 6 bits; rejects characters
outside the alphanumeric charset. -/
def Bits.push_alphanumeric_data (b : Bits) (data : List Nat) :
    QrResult Bits := do
  let b ← b.push_header .alphanumeric data.length
  let chunks := chunksOf 2 data
  chunks.foldlM
    (fun acc chunk => do
      match chunk with
      | [x, y] =>
        match alnumValue x, alnumValue y with
        | some vx, some vy => pure (acc.push_number 11 (vx * 45 + vy))
        | _, _ => .error .invalidCharacter
      | [x] =>
        match alnumValue x with
        | some vx => pure (acc.push_number 6 vx)
        | none => .error .invalidCharacter
      | _ => pure acc)
    b

/-- `Bits::push_byte_data`: header then each byte as 8 bits. -/
def Bits.push_byte_data (b : Bits) (data : List Nat) : QrResult Bits := do
  let b ← b.push_header .byte data.length
  pure (data.foldl (fun acc byte => acc.push_number 8 byte) b)

/-- The 13-bit value of a Shift-JIS double-byte character, or none when the
pair is not in the Kanji ranges. -/
def kanjiValue (a b : Nat) : Option Nat :=
  let v := a * 256 + b
  if (0x8140 ≤ v && v ≤ 0x9FFC) then
    let adj := v - 0x8140
    some ((adj / 256) * 0xC0 + adj % 256)
  else if (0xE040 ≤ v && v ≤ 0xEBBF) then
    let adj := v - 0xC140
    some ((adj / 256) * 0xC0 + adj % 256)
  else none

/-- `Bits::push_kanji_data`: header then each Shift-JIS pair as 13 bits. -/
def Bits.push_kanji_data (b : Bits) (data : List Nat) : QrResult Bits := do
  let b ← b.push_header .kanji (data.length / 2)
  (chunksOf 2 data).foldlM
    (fun acc chunk =>
      match chunk with
      | [x, y] =>
        match kanjiValue x y with
        | some v => pure (acc.push_number 13 v)
        | none => .error .invalidCharacter
      | _ => .error .invalidCharacter)
    b

/-- Alternating pad codewords 0xEC, 0x11, as a bit stream of `n` bytes. -/
def padBytesBits (n : Nat) : List Bool :=
  ((List.range n).map (fun i => if i % 2 = 0 then (0xEC : Nat) else 0x11)).flatMap
    (natBits 8)

/-- Byte-align the buffer and fill with alternating 0xEC/0x11 pad bytes up
to the byte part of the `cap`-bit budget (no-op when the budget is already
met). -/
def Bits.padBytesFill (b : Bits) (cap : Nat) : Bits :=
  if b.len < cap then
    let aligned : Bits := { b with
      bits := b.bits ++ List.replicate ((8 - b.len % 8) % 8) false }
    { aligned with
      bits := aligned.bits ++ padBytesBits (cap / 8 - aligned.len / 8) }
  else b

/-- Append the final zero codeword when the budget is still not met (the
4-bit final codeword of Micro versions 1 and 3). -/
def Bits.padFinal (b : Bits) (cap : Nat) : Bits :=
  if b.len < cap then b.push_number 8 0 else b

/-- The terminator-and-padding tail: up to `tsize` zero terminator bits,
byte alignment, 0xEC/0x11 pad bytes, final zero codeword. -/
def Bits.terminatorPad (b : Bits) (tsize cap : Nat) : Bits :=
  Bits.padFinal (Bits.padBytesFill (b.push_number (min tsize (cap - b.len)) 0) cap) cap

/-- `Bits::push_terminator`: write up to 4 zero terminator bits (Micro:
3/5/7/9 by version), byte-align, fill with alternating 0xEC/0x11 pad bytes
up to the data budget of `(version, ec_level)`, then a final zero codeword
for Micro versions whose budget is not byte-aligned.  Fails `DataTooLong`
when the data already exceeds the budget. -/
def Bits.push_terminator (b : Bits) (ec_level : EcLevel) : QrResult Bits := do
  let terminator_size :=
    match b.version with
    | .micro a => a * 2 + 1
    | .normal _ => 4
  let cur_length := b.len
  let data_length ← dataLengths b.version ec_level
  if cur_length > data_length then .error .dataTooLong
  else pure (b.terminatorPad terminator_size data_length)

/-- `Bits::into_bytes`: the accumulated data codewords; a trailing partial
byte is zero-padded at the low end. -/
def Bits.into_bytes (b : Bits) : List Nat :=
  (chunksOf 8 b.bits).map (fun chunk =>
    (chunk ++ List.replicate (8 - chunk.length) false).foldl
      (fun acc bit => acc * 2 + (if bit then 1 else 0)) 0)

/-! ## Error-correction coder (modelled from the spec's `ec` component):
GF(256) with primitive polynomial 0x11D and primitive element 2. -/

/-- Powers of the primitive element 2 in GF(256), packed as one natural
number with 8 bits per entry: byte `i` holds `2^i` for `i < 255`. -/
def gfExpNat : Nat :=
  ((List.range 255).foldl
    (fun st i =>
      let next := st.2 * 2
      (st.1 ||| (st.2 <<< (8 * i)),
       if next ≥ 256 then next ^^^ 0x11D else next))
    ((0 : Nat), (1 : Nat))).1

/-- `2^i` in GF(256), with the exponent reduced mod 255. -/
def gfExp (i : Nat) : Nat := (gfExpNat >>> (8 * (i % 255))) &&& 255

/-- The discrete-logarithm table of GF(256), packed as one natural number
with 8 bits per entry: byte `x` holds `log2 x` for `1 ≤ x ≤ 255`. -/
def gfLogNat : Nat :=
  (List.range 255).foldl (fun acc i => acc ||| (i <<< (8 * gfExp i))) 0

/-- Discrete logarithm base 2 in GF(256) (meaningful for `1 ≤ x ≤ 255`). -/
def gfLog (x : Nat) : Nat := (gfLogNat >>> (8 * x)) &&& 255

/-- Multiplication in GF(256). -/
def gfMul (a b : Nat) : Nat :=
  if a = 0 || b = 0 then 0 else gfExp (gfLog a + gfLog b)

/-- The Reed-Solomon generator polynomial of degree `ec`, highest
coefficient first: the product of `(x - 2^i)` for `i < ec`. -/
def generatorPoly (ec : Nat) : List Nat :=
  (List.range ec).foldl
    (fun p i =>
      List.zipWith (fun a b => a ^^^ b) (p ++ [0])
        (0 :: p.map (fun c => gfMul c (gfExp i))))
    [1]

/-- One step of polynomial long division: cancel the leading coefficient
against the (monic) generator's tail. -/
def rsStep (genTail : List Nat) : List Nat → List Nat
  | [] => []
  | lead :: rest =>
    if lead = 0 then rest
    else
      List.zipWith (fun r g => r ^^^ gfMul g lead) rest
        (genTail ++ List.replicate (rest.length - genTail.length) 0)

/-- Modelled from the spec: `ec::create_error_correction_code` — the `ec`
Reed-Solomon parity codewords of a data block, the remainder of the
zero-padded message polynomial modulo the generator. -/
def create_error_correction_code (data : List Nat) (ec : Nat) : List Nat :=
  let genTail := (generatorPoly ec).drop 1
  (List.range data.length).foldl
    (fun buf _ => rsStep genTail buf)
    (data ++ List.replicate ec 0)

/-- Split the data codewords into the blocks prescribed by the block-table
entry `(size1, count1, size2, count2)`. -/
def splitBlocks (data : List Nat) (s1 c1 s2 c2 : Nat) : List (List Nat) :=
  let rec go (d : List Nat) (sizes : List Nat) : List (List Nat) :=
    match sizes with
    | [] => []
    | s :: rest => d.take s :: go (d.drop s) rest
  go data (List.replicate c1 s1 ++ List.replicate c2 s2)

/-- Interleave blocks column-major: all first codewords in block order,
then all second codewords, and so on (shorter blocks simply run out). -/
def interleave (blocks : List (List Nat)) : List Nat :=
  blocks.transpose.flatten

/-- Modelled from the spec: `ec::construct_codewords` — split the data
codewords into blocks, compute the Reed-Solomon parity of each, and return
the interleaved data stream and the interleaved parity stream. -/
def construct_codewords (rawbits : List Nat) (v : Version) (e : EcLevel) :
    QrResult (List Nat × List Nat) := do
  let (s1, c1, s2, c2) ← fetchDataBytesPerBlock v e
  let ecBytes ← fetchEcBytesPerBlock v e
  let blocks := splitBlocks rawbits s1 c1 s2 c2
  let ecBlocks := blocks.map (fun blk => create_error_correction_code blk ecBytes)
  pure (interleave blocks, interleave ecBlocks)

/-- Modelled from the spec: the number of error-detection codewords `p`
the ISO error-correction-capacity table reserves for misdecode protection
(the spec's scenario S5 and invariant 6 fix `max_allowed_errors(Normal 1,
M) = 4 = (10 - p) / 2`, the ISO table value). -/
def misdecodeProtection (v : Version) (e : EcLevel) : Nat :=
  match v, e with
  | .micro 2, .L | .normal 1, .L => 3
  | .micro _, .L | .normal 2, .L | .micro 2, .M => 2
  | .normal 1, _ | .normal 3, .L | .micro _, _ => 1
  | _, _ => 0

/-- Modelled from the spec: `ec::max_allowed_errors` — the Reed-Solomon
error-correction capacity in codewords for a `(version, ec_level)` pair,
per the ISO capacity table. -/
def max_allowed_errors (v : Version) (e : EcLevel) : QrResult Nat := do
  let ecBytes ← fetchEcBytesPerBlock v e
  let (_, c1, _, c2) ← fetchDataBytesPerBlock v e
  pure (((c1 + c2) * ecBytes - misdecodeProtection v e) / 2)

/-! ## Canvas (modelled from the spec's `canvas` component) -/

/-- Modelled from the spec: a canvas module — functional-pattern modules
are `masked` (frozen), data modules are `unmasked` (the mask may invert
them), unfilled modules are `empty` (treated as light by rendering). -/
inductive Module where
  | empty
  | masked (c : Color)
  | unmasked (c : Color)
deriving DecidableEq, Repr, Inhabited

/-- The visible color of a canvas module. -/
def Module.toColor : Module → Color
  | .empty => .light
  | .masked c => c
  | .unmasked c => c

/-- Is the module dark? -/
def Module.is_dark (m : Module) : Bool := m.toColor = Color.dark

/-- Masking one module: functional (`masked`) modules never change; data
(`unmasked` or `empty`) modules are inverted when the mask predicate holds
and frozen. -/
def Module.maskApply : Module → Bool → Module
  | .empty, true => .masked .dark
  | .empty, false => .masked .light
  | .unmasked .dark, true => .masked .light
  | .unmasked .light, true => .masked .dark
  | .unmasked c, false => .masked c
  | .masked c, _ => .masked c

/-- The 3-bit cell code of a module (the grid is packed into one natural
number so that evaluation stays in accelerated arithmetic): 0 empty,
1/2 masked light/dark, 3/4 unmasked light/dark. -/
def Module.code : Module → Nat
  | .empty => 0
  | .masked .light => 1
  | .masked .dark => 2
  | .unmasked .light => 3
  | .unmasked .dark => 4

/-- Decode a 3-bit cell code back into a module. -/
def Module.ofCode (n : Nat) : Module :=
  if n = 1 then .masked .light
  else if n = 2 then .masked .dark
  else if n = 3 then .unmasked .light
  else if n = 4 then .unmasked .dark
  else .empty

/-- Modelled from the spec: the canvas — a `width × width` grid of modules
in row-major order (packed 3 bits per cell, cell `y*width+x` at bit
`3*(y*width+x)`), plus the encoding parameters. -/
structure Canvas where
  width : Nat
  version : Version
  ec_level : EcLevel
  modules : Nat
deriving DecidableEq, Repr

/-- `Canvas::new`: an all-empty canvas for the version. -/
def Canvas.new (v : Version) (e : EcLevel) : Canvas :=
  ⟨v.width, v, e, 0⟩

/-- The cell code at flat index `idx`. -/
def Canvas.cellCode (c : Canvas) (idx : Nat) : Nat :=
  (c.modules >>> (3 * idx)) &&& 7

/-- Overwrite the cell code at flat index `idx`. -/
def Canvas.setCode (c : Canvas) (idx code : Nat) : Canvas :=
  { c with modules := c.modules ^^^ ((c.cellCode idx ^^^ code) <<< (3 * idx)) }

/-- Read the module at `(x, y)` (column, row; origin top-left). -/
def Canvas.get (c : Canvas) (x y : Nat) : Module :=
  Module.ofCode (c.cellCode (y * c.width + x))

/-- Stamp a functional (frozen) module at `(x, y)`. -/
def Canvas.put (c : Canvas) (x y : Nat) (col : Color) : Canvas :=
  c.setCode (y * c.width + x) (Module.code (.masked col))

/-- Place a data module at `(x, y)` (unmasked; the mask may invert it). -/
def Canvas.putData (c : Canvas) (x y : Nat) (col : Color) : Canvas :=
  c.setCode (y * c.width + x) (Module.code (.unmasked col))

/-- Absolute distance of naturals. -/
def natDist (a b : Nat) : Nat := max (a - b) (b - a)

/-- Stamp a finder pattern (with its separator ring) centred at
`(cx, cy)`, covering the rectangle `[xlo, xhi] × [ylo, yhi]`: by Chebyshev
distance from the centre — 0-1 dark core, 2 light ring, 3 dark border,
4 light separator. -/
def Canvas.drawFinderAt (c : Canvas) (cx cy xlo xhi ylo yhi : Nat) : Canvas :=
  (List.range (yhi + 1 - ylo)).foldl
    (fun acc dy =>
      (List.range (xhi + 1 - xlo)).foldl
        (fun acc2 dx =>
          let x := xlo + dx
          let y := ylo + dy
          let d := max (natDist x cx) (natDist y cy)
          acc2.put x y
            (if d ≤ 1 then .dark
             else if d = 2 then .light
             else if d = 3 then .dark
             else .light))
        acc)
    c

/-- Finder patterns and separators: top-left always; top-right and
bottom-left for Normal versions only. -/
def Canvas.drawFinderPatterns (c : Canvas) : Canvas :=
  match c.version with
  | .micro _ => c.drawFinderAt 3 3 0 7 0 7
  | .normal _ =>
    ((c.drawFinderAt 3 3 0 7 0 7).drawFinderAt
        (c.width - 4) 3 (c.width - 8) (c.width - 1) 0 7).drawFinderAt
      3 (c.width - 4) 0 7 (c.width - 8) (c.width - 1)

/-- A 5×5 alignment pattern centred at `(cx, cy)`: dark centre, light
ring, dark border. -/
def Canvas.drawAlignmentAt (c : Canvas) (cx cy : Nat) : Canvas :=
  (List.range 5).foldl
    (fun acc dy =>
      (List.range 5).foldl
        (fun acc2 dx =>
          let x := cx + dx - 2
          let y := cy + dy - 2
          let d := max (natDist x cx) (natDist y cy)
          acc2.put x y (if d = 1 then .light else .dark))
        acc)
    c

/-- Modelled from the spec: the alignment-pattern coordinate table for
Normal versions 7 to 40 (ISO table). -/
def alignmentCoords : List (List Nat) :=
  [ [6,22,38], [6,24,42], [6,26,46], [6,28,50], [6,30,54], [6,32,58],
    [6,34,62], [6,26,46,66], [6,26,48,70], [6,26,50,74], [6,30,54,78],
    [6,30,56,82], [6,30,58,86], [6,34,62,90], [6,28,50,72,94],
    [6,26,50,74,98], [6,30,54,78,102], [6,28,54,80,106], [6,32,58,84,110],
    [6,30,58,86,114], [6,34,62,90,118], [6,26,50,74,98,122],
    [6,30,54,78,102,126], [6,26,52,78,104,130], [6,30,56,82,108,134],
    [6,34,60,86,112,138], [6,30,58,86,114,142], [6,34,62,90,118,146],
    [6,30,54,78,102,126,150], [6,24,50,76,102,128,154],
    [6,28,54,80,106,132,158], [6,32,58,84,110,136,162],
    [6,26,54,82,110,138,166], [6,30,58,86,114,142,170] ]

/-- Alignment patterns: none for Micro and Normal 1; one at
`(width-7, width-7)` for Normal 2-6; for Normal ≥ 7 every coordinate pair
from the table except the three finder corners. -/
def Canvas.drawAlignmentPatterns (c : Canvas) : Canvas :=
  match c.version with
  | .micro _ => c
  | .normal 1 => c
  | .normal n =>
    if n ≤ 6 then c.drawAlignmentAt (c.width - 7) (c.width - 7)
    else
      let coords := alignmentCoords.getD (n - 7) []
      let last := coords.getD (coords.length - 1) 6
      (coords.foldl
        (fun acc a =>
          coords.foldl
            (fun acc2 b =>
              if (a = 6 ∧ b = 6) ∨ (a = 6 ∧ b = last) ∨ (a = last ∧ b = 6)
              then acc2
              else acc2.drawAlignmentAt a b)
            acc)
        c)

/-- One timing line (and its transpose): positions `lo..hi` of row `line`
and of column `line`, dark at even coordinates. -/
def Canvas.drawTimingLine (c : Canvas) (line lo hi : Nat) : Canvas :=
  (List.range (hi + 1 - lo)).foldl
    (fun acc i =>
      let p := lo + i
      let col := if p % 2 = 0 then Color.dark else Color.light
      (acc.put p line col).put line p col)
    c

/-- Timing patterns: row/column 6 for Normal (between the finders),
row/column 0 for Micro (from the finder to the far edge); dark at even
coordinates. -/
def Canvas.drawTimingPatterns (c : Canvas) : Canvas :=
  match c.version with
  | .micro _ => c.drawTimingLine 0 8 (c.width - 1)
  | .normal _ => c.drawTimingLine 6 8 (c.width - 9)

/-- Remainder of the polynomial `value` (of `totalBits` bits) modulo the
BCH generator `g` of degree `gdeg`, over GF(2). -/
def bchRem (value g gdeg totalBits : Nat) : Nat :=
  ((List.range (totalBits - gdeg)).reverse).foldl
    (fun acc i =>
      if (acc >>> (i + gdeg)) % 2 = 1 then acc ^^^ (g <<< i) else acc)
    value

/-- Modelled from the spec: the 15-bit Normal format information — 5-bit
data `ec_indicator << 3 | mask_index` (indicator: L=01, M=00, Q=11, H=10),
BCH(15,5) with generator 0x537, XORed with 0x5412. -/
def formatInfoNormal (e : EcLevel) (mask : Nat) : Nat :=
  let d5 := ((e.num ^^^ 1) <<< 3) ||| mask
  let v := d5 <<< 10
  (v ||| bchRem v 0x537 10 15) ^^^ 0x5412

/-- Modelled from the spec: the Micro symbol-number indicator derived from
`(version, ec_level)` per the ISO table. -/
def microSymbolNumber (v : Version) (e : EcLevel) : Nat :=
  match v, e with
  | .micro 1, _ => 0
  | .micro 2, .L => 1
  | .micro 2, .M => 2
  | .micro 3, .L => 3
  | .micro 3, .M => 4
  | .micro 4, .L => 5
  | .micro 4, .M => 6
  | .micro 4, .Q => 7
  | _, _ => 0

/-- Modelled from the spec: the 15-bit Micro format information — 5-bit
data `symbol_number << 2 | mask_index`, BCH(15,5) with generator 0x537,
XORed with 0x4445. -/
def formatInfoMicro (v : Version) (e : EcLevel) (mask : Nat) : Nat :=
  let d5 := (microSymbolNumber v e <<< 2) ||| mask
  let v15 := d5 <<< 10
  (v15 ||| bchRem v15 0x537 10 15) ^^^ 0x4445

/-- Format-information positions around the top-left finder (Normal),
most significant bit first; `(8, 6)` and `(6, 8)` are skipped (timing). -/
def formatCoordsMain : List (Nat × Nat) :=
  [(0,8),(1,8),(2,8),(3,8),(4,8),(5,8),(7,8),(8,8),
   (8,7),(8,5),(8,4),(8,3),(8,2),(8,1),(8,0)]

/-- The second format-information copy, split between the bottom-left and
top-right finders (Normal), most significant bit first. -/
def formatCoordsSide (w : Nat) : List (Nat × Nat) :=
  [(8,w-1),(8,w-2),(8,w-3),(8,w-4),(8,w-5),(8,w-6),(8,w-7),
   (w-8,8),(w-7,8),(w-6,8),(w-5,8),(w-4,8),(w-3,8),(w-2,8),(w-1,8)]

/-- Micro format-information positions around the single finder, most
significant bit first. -/
def formatCoordsMicro : List (Nat × Nat) :=
  [(1,8),(2,8),(3,8),(4,8),(5,8),(6,8),(7,8),(8,8),
   (8,7),(8,6),(8,5),(8,4),(8,3),(8,2),(8,1)]

/-- Stamp the `n` bits of `value` (most significant first) at the listed
coordinates as functional modules. -/
def Canvas.drawNumber (c : Canvas) (value n : Nat)
    (coords : List (Nat × Nat)) : Canvas :=
  (List.zip (natBits n value) coords).foldl
    (fun acc (bit, xy) =>
      acc.put xy.1 xy.2 (if bit then .dark else .light))
    c

/-- Write a raw 15-bit format value onto the canvas (both copies and the
dark module at `(8, width-8)` for Normal; the single copy for Micro). -/
def Canvas.drawFormatRaw (c : Canvas) (value : Nat) : Canvas :=
  match c.version with
  | .micro _ => c.drawNumber value 15 formatCoordsMicro
  | .normal _ =>
    (((c.drawNumber value 15 formatCoordsMain).drawNumber value 15
        (formatCoordsSide c.width)).put 8 (c.width - 8) .dark)

/-- Reserve the format-information region (drawn with a zero placeholder
before data placement, so the data walk skips it). -/
def Canvas.drawReservedFormatInfo (c : Canvas) : Canvas :=
  c.drawFormatRaw 0

/-- The 18-bit version information: `version << 12` plus its BCH(18,6)
remainder with generator 0x1F25. -/
def versionInfo (n : Nat) : Nat :=
  (n <<< 12) ||| bchRem (n <<< 12) 0x1F25 12 18

/-- Version-information positions for the bottom-left 6×3 block, most
significant bit first (bit `i` sits at `(i / 3, width - 11 + i % 3)`). -/
def versionCoordsBL (w : Nat) : List (Nat × Nat) :=
  ((List.range 18).reverse).map (fun i => (i / 3, w - 11 + i % 3))

/-- Version information (Normal versions ≥ 7 only): the 18-bit value in
the bottom-left block and its transpose by the top-right finder. -/
def Canvas.drawVersionInfoPatterns (c : Canvas) : Canvas :=
  match c.version with
  | .normal n =>
    if n ≥ 7 then
      let vi := versionInfo n
      (c.drawNumber vi 18 (versionCoordsBL c.width)).drawNumber vi 18
        ((versionCoordsBL c.width).map (fun xy => (xy.2, xy.1)))
    else c
  | .micro _ => c

/-- `Canvas::draw_all_functional_patterns`: finders and separators,
alignment patterns, reserved format region (with the dark module), timing
patterns and version information. -/
def Canvas.draw_all_functional_patterns (c : Canvas) : Canvas :=
  c.drawFinderPatterns.drawAlignmentPatterns.drawReservedFormatInfo.drawTimingPatterns.drawVersionInfoPatterns

/-- The right column of every column pair of the zig-zag walk, rightmost
first; Normal versions skip the timing column 6. -/
def rightColsGo (micro : Bool) : Nat → Nat → List Nat
  | 0, _ => []
  | _ + 1, 0 => []
  | fuel + 1, x =>
    x :: rightColsGo micro fuel (if !micro && x - 2 = 6 then 5 else x - 2)

/-- The zig-zag data-placement walk: column pairs right to left, scanning
upward in even pairs and downward in odd pairs, right cell before left. -/
def zigzagCoords (w : Nat) (micro : Bool) : List (Nat × Nat) :=
  ((rightColsGo micro w (w - 1)).enum.map
    (fun ix =>
      let ys := if ix.1 % 2 = 0 then (List.range w).reverse else List.range w
      ys.flatMap (fun y => [(ix.2, y), (ix.2 - 1, y)]))).flatten

/-- Walk the coordinates, writing each pending bit into the next empty
module; stops when the bits run out (remaining modules stay empty). -/
def drawDataGo : List (Nat × Nat) → Canvas → List Bool → Canvas
  | [], c, _ => c
  | _, c, [] => c
  | (x, y) :: coords, c, bit :: bits =>
    if c.get x y = Module.empty then
      drawDataGo coords (c.putData x y (if bit then .dark else .light)) bits
    else
      drawDataGo coords c (bit :: bits)

/-- `Canvas::draw_data`: place the interleaved data codewords then the
parity codewords along the zig-zag walk, most significant bit first; for
Micro versions whose data budget ends in a 4-bit codeword only the high
nibble of the final data byte is placed. -/
def Canvas.draw_data (c : Canvas) (data ecd : List Nat) : Canvas :=
  let halfAdj :=
    match dataLengths c.version c.ec_level with
    | .ok n => if n % 8 = 4 then 4 else 0
    | .error _ => 0
  let dataBits := (data.flatMap (natBits 8)).take (data.length * 8 - halfAdj)
  let allBits := dataBits ++ ecd.flatMap (natBits 8)
  drawDataGo (zigzagCoords c.width c.version.is_micro) c allBits

/-- Modelled from the spec: the ISO mask predicates for Normal symbols
(index 0-7); `x` is the column, `y` the row. -/
def maskPredNormal (idx x y : Nat) : Bool :=
  match idx with
  | 0 => (x + y) % 2 = 0
  | 1 => y % 2 = 0
  | 2 => x % 3 = 0
  | 3 => (x + y) % 3 = 0
  | 4 => (y / 2 + x / 3) % 2 = 0
  | 5 => (x * y) % 2 + (x * y) % 3 = 0
  | 6 => ((x * y) % 2 + (x * y) % 3) % 2 = 0
  | _ => ((x + y) % 2 + (x * y) % 3) % 2 = 0

/-- Modelled from the spec: Micro symbols use the Normal masks
{1, 4, 6, 7} renumbered 0-3. -/
def maskPred (v : Version) (idx x y : Nat) : Bool :=
  match v with
  | .normal _ => maskPredNormal idx x y
  | .micro _ => maskPredNormal ([1, 4, 6, 7].getD idx 1) x y

/-- Apply mask `idx` to every data module of the canvas and stamp the
matching format information. -/
def Canvas.apply_mask (c : Canvas) (idx : Nat) : Canvas :=
  Canvas.drawFormatRaw
    ((List.range (c.width * c.width)).foldl
      (fun acc i =>
        acc.setCode i
          (Module.code
            (Module.maskApply (Module.ofCode (acc.cellCode i))
              (maskPred c.version idx (i % c.width) (i / c.width)))))
      c)
    (match c.version with
     | .normal _ => formatInfoNormal c.ec_level idx
     | .micro _ => formatInfoMicro c.version c.ec_level idx)

/-- The visible color at `(x, y)`. -/
def Canvas.colorAt (c : Canvas) (x y : Nat) : Color :=
  (c.get x y).toColor

/-- Is the module at `(x, y)` dark (cell codes 2 and 4 are the dark
ones)? -/
def Canvas.darkAt (c : Canvas) (x y : Nat) : Bool :=
  let m := c.cellCode (y * c.width + x)
  m = 2 || m = 4

/-- Is position `j` of line `i` dark (`horizontal`: line `i` is row `i`,
otherwise column `i`)? -/
def Canvas.lineDark (c : Canvas) (horizontal : Bool) (i j : Nat) : Bool :=
  if horizontal then c.darkAt j i else c.darkAt i j

/-- The dark modules of the canvas as one bitmap: bit `y*width+x` is set
when the module at `(x, y)` is dark. -/
def Canvas.darkBitmap (c : Canvas) : Nat :=
  (List.range (c.width * c.width)).foldl
    (fun acc i =>
      let m := c.cellCode i
      if m = 2 || m = 4 then acc ||| (1 <<< i) else acc)
    0

/-- Count the set bits of a bitmap (`fuel` bounds the loop). -/
def popCount : Nat → Nat → Nat
  | 0, _ => 0
  | _, 0 => 0
  | fuel + 1, n => 1 + popCount fuel (n &&& (n - 1))

/-- Penalty N1 for one line (given as a `w`-bit dark bitmap): every
maximal run of one color of length at least 5 scores `3 + (len - 5)`. -/
def lineRunPenalty (w m : Nat) : Nat :=
  ((List.range w).foldl
    (fun st j =>
      let d := (m >>> j) &&& 1
      let (prev, len, acc) := st
      if prev = d then
        let len2 := len + 1
        (prev, len2, acc + (if len2 = 5 then 3 else if len2 > 5 then 1 else 0))
      else (d, 1, acc))
    ((2 : Nat), 0, 0)).2.2

/-- Penalty N2 for one adjacent row pair (as `w`-bit dark bitmaps): every
2×2 block of a single color scores 3. -/
def blockPairPenalty (w r1 r2 : Nat) : Nat :=
  let pairMask := 2 ^ (w - 1) - 1
  let full := 2 ^ w - 1
  let dd := r1 &&& (r1 >>> 1) &&& r2 &&& (r2 >>> 1) &&& pairMask
  let l1 := r1 ^^^ full
  let l2 := r2 ^^^ full
  let ll := l1 &&& (l1 >>> 1) &&& l2 &&& (l2 >>> 1) &&& pairMask
  3 * (popCount w dd + popCount w ll)

/-- Penalty N3 for one line (as a `w`-bit dark bitmap): 40 per occurrence
of the pattern 10111010000 or its reverse — a 1011101 core (value 93 over
7 bits) with four all-light modules on at least one flank, the symbol
boundary (quiet zone) counting as light, each core counted once.  This
boundary treatment reproduces the source tests' Annex I fixtures. -/
def lineFinderPenalty (w m : Nat) : Nat :=
  (List.range (w - 6)).foldl
    (fun acc j =>
      let beforeFree := (m >>> (j - 4)) &&& (2 ^ (min 4 j) - 1) = 0
      let afterFree := (m >>> (j + 7)) &&& 15 = 0
      if (m >>> j) &&& 127 = 93 ∧ (beforeFree ∨ afterFree)
      then acc + 40 else acc)
    0

/-- The rows of the canvas as `w`-bit dark bitmaps, top to bottom. -/
def Canvas.rowMasks (c : Canvas) : List Nat :=
  let dmap := c.darkBitmap
  (List.range c.width).map
    (fun y => (dmap >>> (c.width * y)) &&& (2 ^ c.width - 1))

/-- The columns of a row-bitmap list as `w`-bit dark bitmaps. -/
def colMasks (w : Nat) (rows : List Nat) : List Nat :=
  (List.range w).map
    (fun x =>
      ((rows.foldl
        (fun st r => (st.1 + 1, st.2 ||| (((r >>> x) &&& 1) <<< st.1)))
        ((0 : Nat), (0 : Nat)))).2)

/-- The total Normal penalty score of a canvas — N1 (rows and columns),
N2 (2×2 blocks), N3 (finder-like patterns in rows and columns) and N4
(the dark-share deviation from 50% in steps of 5%, 10 points each,
computed on the doubled percentage, matching the encoder's integer
arithmetic). -/
def Canvas.penalty (c : Canvas) : Nat :=
  let w := c.width
  let rows := c.rowMasks
  let cols := colMasks w rows
  let lines := rows ++ cols
  let n1 := (lines.map (lineRunPenalty w)).sum
  let n2 := ((List.zip rows (rows.drop 1)).map
    (fun p => blockPairPenalty w p.1 p.2)).sum
  let n3 := (lines.map (lineFinderPenalty w)).sum
  let dark := (rows.map (popCount w)).sum
  let n4 := natDist (dark * 200 / (w * w)) 100 / 10 * 10
  n1 + n2 + n3 + n4

/-- Modelled from the spec: the Micro mask-evaluation score per ISO —
`16 * min(sum1, sum2) + max(sum1, sum2)` where `sum1`/`sum2` count dark
modules on the right and lower edges (excluding the timing row/column);
the mask with the LARGEST score wins. -/
def Canvas.microScore (c : Canvas) : Nat :=
  let w := c.width
  let sum1 := (List.range (w - 1)).foldl
    (fun acc k => if c.darkAt (w - 1) (k + 1) then acc + 1 else acc) 0
  let sum2 := (List.range (w - 1)).foldl
    (fun acc k => if c.darkAt (k + 1) (w - 1) then acc + 1 else acc) 0
  16 * min sum1 sum2 + max sum1 sum2

/-- `Canvas::apply_best_mask`: try every candidate mask (8 Normal,
4 Micro), score each fully-masked canvas, and keep the Normal minimum /
Micro maximum (first on ties). -/
def Canvas.apply_best_mask (c : Canvas) : Canvas :=
  match c.version with
  | .normal _ =>
    match (List.range 8).map
        (fun i => (c.apply_mask i, (c.apply_mask i).penalty)) with
    | [] => c
    | cand :: rest =>
      (rest.foldl (fun best k => if k.2 < best.2 then k else best) cand).1
  | .micro _ =>
    match (List.range 4).map
        (fun i => (c.apply_mask i, (c.apply_mask i).microScore)) with
    | [] => c
    | cand :: rest =>
      (rest.foldl (fun best k => if k.2 > best.2 then k else best) cand).1

/-- `Canvas::into_colors`: freeze the canvas into the flat color vector
(row-major). -/
def Canvas.into_colors (c : Canvas) : List Color :=
  (List.range (c.width * c.width)).map
    (fun i => (Module.ofCode (c.cellCode i)).toColor)

/-! ## Segment optimizer (modelled from the spec's `optimize` component) -/

/-- A segment: a run of input bytes `[lo, hi)` to be encoded in one mode. -/
structure Segment where
  mode : Mode
  lo : Nat
  hi : Nat
deriving DecidableEq, Repr

/-- The encoded length in bits of a segment at a version: mode indicator,
character-count indicator, and packed data. -/
def Segment.encodedLen (s : Segment) (v : Version) : Nat :=
  let chars := if s.mode = Mode.kanji then (s.hi - s.lo) / 2 else s.hi - s.lo
  v.mode_bits_count + s.mode.length_bits_count v +
    s.mode.data_bits_count chars

/-- Total encoded length in bits of a segment list at a version. -/
def totalEncodedLen (segs : List Segment) (v : Version) : Nat :=
  (segs.map (fun s => s.encodedLen v)).sum

/-- Modelled from the spec: classify one byte into the smallest mode whose
alphabet accepts it (Numeric ⊂ Alphanumeric ⊂ Byte). -/
def classifyByte (b : Nat) : Mode :=
  if isDigitByte b then .numeric
  else if (alnumValue b).isSome then .alphanumeric
  else .byte

/-- Is `(a, b)` a Shift-JIS double-byte (Kanji) pair? -/
def isKanjiPair (a b : Nat) : Bool := (kanjiValue a b).isSome

/-- Modelled from the spec: split the input into runs by mode — Kanji for
byte pairs that decode as Shift-JIS double-byte characters (considered
before the single-byte classes), otherwise the smallest accepting mode. -/
def classifyAll : List Nat → List Mode
  | [] => []
  | a :: b :: rest =>
    if isKanjiPair a b then .kanji :: .kanji :: classifyAll rest
    else classifyByte a :: classifyAll (b :: rest)
  | [a] => [classifyByte a]

/-- Group a mode list into maximal runs as segments over positions. -/
def groupRunsGo : Nat → Option Segment → List Mode → List Segment
  | _, none, [] => []
  | _, some s, [] => [s]
  | i, none, m :: rest => groupRunsGo (i + 1) (some ⟨m, i, i + 1⟩) rest
  | i, some s, m :: rest =>
    if s.mode = m then groupRunsGo (i + 1) (some { s with hi := i + 1 }) rest
    else s :: groupRunsGo (i + 1) (some ⟨m, i, i + 1⟩) rest

/-- Modelled from the spec: the initial run-length segment list of the
input data. -/
def parseSegments (data : List Nat) : List Segment :=
  groupRunsGo 0 none (classifyAll data)

/-- One merge pass: adjacent segments are merged (into the weaker mode)
whenever the merged cost does not exceed the cost of keeping them apart.
The head segment is carried as an accumulator so the recursion is
structural. -/
def mergePassGo (v : Version) (a : Segment) : List Segment → List Segment
  | [] => [a]
  | b :: rest =>
    let merged : Segment := ⟨a.mode.join b.mode, a.lo, b.hi⟩
    if merged.encodedLen v ≤ a.encodedLen v + b.encodedLen v then
      mergePassGo v merged rest
    else
      a :: mergePassGo v b rest

/-- One left-to-right merge pass over a segment list. -/
def mergePass (v : Version) : List Segment → List Segment
  | [] => []
  | a :: rest => mergePassGo v a rest

/-- Modelled from the spec: merge adjacent segments until no merge reduces
the cost (the pass count is bounded by the segment count). -/
def optimizeGo (v : Version) : Nat → List Segment → List Segment
  | 0, segs => segs
  | fuel + 1, segs =>
    let segs2 := mergePass v segs
    if segs2 = segs then segs else optimizeGo v fuel segs2

/-- The version-specific optimized segmentation of a segment list. -/
def optimizeSegments (v : Version) (segs : List Segment) : List Segment :=
  optimizeGo v segs.length segs

/-- Push one segment's data (sliced from the input) into the bit buffer. -/
def Bits.pushSegment (b : Bits) (data : List Nat) (s : Segment) :
    QrResult Bits :=
  let slice := (data.drop s.lo).take (s.hi - s.lo)
  match s.mode with
  | .numeric => b.push_numeric_data slice
  | .alphanumeric => b.push_alphanumeric_data slice
  | .byte => b.push_byte_data slice
  | .kanji => b.push_kanji_data slice

/-- `Bits::push_optimal_data`: compute the minimum-cost segmentation for
this buffer's version and replay it into the buffer. -/
def Bits.push_optimal_data (b : Bits) (data : List Nat) : QrResult Bits :=
  (optimizeSegments b.version (parseSegments data)).foldlM
    (fun acc s => acc.pushSegment data s) b

/-- The version order tried by automatic selection: Micro 1-4 then
Normal 1-40, ascending. -/
def versionOrder : List Version :=
  ((List.range 4).map (fun i => Version.micro (i + 1))) ++
    ((List.range 40).map (fun i => Version.normal (i + 1)))

/-- Try to build terminated `Bits` for the data at one version: skipped
(None) when the version does not support the ec level or the optimized
segmentation does not fit its bit budget. -/
def encodeAutoAt (data : List Nat) (e : EcLevel) (segs : List Segment)
    (v : Version) : Option (QrResult Bits) :=
  match dataLengths v e with
  | .error _ => none
  | .ok cap =>
    let osegs := optimizeSegments v segs
    if totalEncodedLen osegs v ≤ cap then
      some (do
        let b ← osegs.foldlM (fun acc s => acc.pushSegment data s) (Bits.new v)
        b.push_terminator e)
    else none

/-- The automatic-selection loop: try each version in order; a version
the ec level does not support, or whose capacity is too small, means "try
the next"; the first fitting version is encoded (its own errors surface
immediately); when no version fits the result is `DataTooLong`. -/
def encodeAutoGo (data : List Nat) (e : EcLevel) (segs : List Segment) :
    List Version → QrResult Bits
  | [] => .error .dataTooLong
  | v :: rest =>
    match encodeAutoAt data e segs v with
    | none => encodeAutoGo data e segs rest
    | some r => r

/-- Modelled from the spec: `bits::encode_auto` — try versions in
ascending order `{M1..M4, Normal 1..40}` restricted to those supporting
the ec level, treating a too-small capacity as "try the next version". -/
def encode_auto (data : List Nat) (e : EcLevel) : QrResult Bits :=
  encodeAutoGo data e (parseSegments data) versionOrder

/-! ## The `QrCode` facade (translated from the source `lib.rs`) -/

/-- The encoded QR code symbol (source: `struct QrCode`). -/
structure QrCode where
  content : List Color
  version : Version
  ec_level : EcLevel
  width : Nat
deriving DecidableEq, Repr

/-- `QrCode::with_bits` (source): error-correct the bit stream, draw the
functional patterns and the codewords, choose the best mask, and freeze
the canvas. -/
def QrCode.with_bits (bits : Bits) (ec_level : EcLevel) : QrResult QrCode := do
  let version := bits.version
  let data := bits.into_bytes
  let (encoded_data, ec_data) ← construct_codewords data version ec_level
  let canvas := Canvas.new version ec_level
  let canvas := canvas.draw_all_functional_patterns
  let canvas := canvas.draw_data encoded_data ec_data
  let canvas := canvas.apply_best_mask
  pure ⟨canvas.into_colors, version, ec_level, version.width⟩

/-- `QrCode::with_version` (source): optimal segmentation at the given
version, terminator for the ec level, then `with_bits`. -/
def QrCode.with_version (data : List Nat) (version : Version)
    (ec_level : EcLevel) : QrResult QrCode := do
  let bits := Bits.new version
  let bits ← bits.push_optimal_data data
  let bits ← bits.push_terminator ec_level
  QrCode.with_bits bits ec_level

/-- `QrCode::with_error_correction_level` (source): automatic version
selection then `with_bits`. -/
def QrCode.with_error_correction_level (data : List Nat) (ec_level : EcLevel) :
    QrResult QrCode := do
  let bits ← encode_auto data ec_level
  QrCode.with_bits bits ec_level

/-- `QrCode::new` (source): automatic encoding at the Medium level. -/
def QrCode.new (data : List Nat) : QrResult QrCode :=
  QrCode.with_error_correction_level data .M

/-- `QrCode::to_colors` (source). -/
def QrCode.to_colors (c : QrCode) : List Color := c.content

/-- `QrCode::into_colors` (source). -/
def QrCode.into_colors (c : QrCode) : List Color := c.content

/-- `QrCode::max_allowed_errors` (source): the table value for the code's
version and level; the source unwraps the table error with `expect`
(modelled as `none`). -/
def QrCode.max_allowed_errors (c : QrCode) : Option Nat :=
  (QrSpec.max_allowed_errors c.version c.ec_level).toOption

/-- `impl Index<(usize, usize)> for QrCode` (source): the module at flat
position `y * width + x`; out of range of the vector means a panic
(modelled as `none`). -/
def QrCode.indexAt (c : QrCode) (x y : Nat) : Option Color :=
  c.content.get? (y * c.width + x)

/-! ## Renderer boundary (modelled from the spec: renderers are external
collaborators consuming `modules`, `width` and a quiet-zone amount). -/

/-- Modelled from the spec: the data a `Renderer` is constructed from
(source `QrCode::render` line: `Renderer::new(&self.content, self.width,
quiet_zone)`). -/
structure Renderer where
  content : List Color
  width : Nat
  quiet_zone : Nat
deriving DecidableEq, Repr

/-- `QrCode::render` (source): quiet zone 2 for Micro, 4 otherwise. -/
def QrCode.render (c : QrCode) : Renderer :=
  let quiet_zone := if c.version.is_micro then 2 else 4
  ⟨c.content, c.width, quiet_zone⟩

/-- `QrCode::to_debug_str` (source): the module grid as rows of `on`/`off`
characters without a quiet zone, rows separated by a newline (renderer
modelled from the spec). -/
def QrCode.to_debug_str (c : QrCode) (on_char off_char : Char) : String :=
  String.intercalate "\n"
    ((chunksOf c.width c.content).map
      (fun row =>
        String.mk (row.map (fun col =>
          if col = Color.dark then on_char else off_char))))

/-- Modelled from the spec: the pixel matrix handed to the terminal
renderer — the module grid plus a surrounding margin. -/
structure Matrix where
  content : List Color
  width : Nat
  margin : Nat
deriving DecidableEq, Repr

/-- `Matrix::surround` (modelled from the spec: add a quiet-zone margin of
the given size around the grid). -/
def Matrix.surround (m : Matrix) (padding : Nat) : Matrix :=
  { m with margin := padding }

/-- `struct Qr` (source): the raw QR code wrapper. -/
structure Qr where
  code : QrCode
deriving DecidableEq, Repr

/-- `Qr::from` (source): automatic encoding at the Medium level. -/
def Qr.from (data : List Nat) : Except QrError Qr := do
  let code ← QrCode.new data
  pure ⟨code⟩

/-- `Qr::to_matrix` (source): the pixel matrix of the code (no margin
yet). -/
def Qr.to_matrix (q : Qr) : Matrix :=
  ⟨q.code.to_colors, q.code.width, 0⟩

/-- `QUIET_ZONE_WIDTH` (source, line 253). -/
def QUIET_ZONE_WIDTH : Nat := 2

/-- `qr_print` (source): build the matrix of the auto-encoded code and
surround it with `QUIET_ZONE_WIDTH` modules before printing; the printed
matrix is returned here in place of the terminal side effect. -/
def qr_print (data : List Nat) : Except QrError Matrix := do
  let q ← Qr.from data
  pure ((q.to_matrix).surround QUIET_ZONE_WIDTH)

/-- `qr_string` (source): identical pipeline to `qr_print`, rendering to a
string; the surrounded matrix is returned in place of the rendered text. -/
def qr_string (data : List Nat) : Except QrError Matrix := do
  let q ← Qr.from data
  pure ((q.to_matrix).surround QUIET_ZONE_WIDTH)

/-- `qr_svg` (source): always encodes at Normal version 5, EC level M, and
unwraps the encoding result (a panic — modelled as `none` — when encoding
fails) before building the SVG renderer. -/
def qr_svg (data : List Nat) : Option (Except QrError Renderer) :=
  match QrCode.with_version data (Version.normal 5) EcLevel.M with
  | .ok code => some (.ok code.render)
  | .error _ => none

/-! ## Statement-level definitions for the verification -/

/-- Does a version support the ec level and fit the optimized segments
within its bit budget? -/
def versionFitsSegs (e : EcLevel) (segs : List Segment) (v : Version) : Bool :=
  match dataLengths v e with
  | .error _ => false
  | .ok cap => totalEncodedLen (optimizeSegments v segs) v ≤ cap

/-- Does a version support the ec level and fit the payload's optimized
segmentation within its bit budget? -/
def versionFits (data : List Nat) (e : EcLevel) (v : Version) : Bool :=
  versionFitsSegs e (parseSegments data) v

/-- Stated from the spec's words, for comparison with `encode_auto`: the
smallest version in ascending order `{M1..M4, Normal 1..40}`, restricted
to those supporting the ec level, whose capacity is at least the required
bit count. -/
def smallestFittingVersion (data : List Nat) (e : EcLevel) : Option Version :=
  versionOrder.find? (versionFits data e)

/-- The Annex I payload `"01234567"` as bytes. -/
def annexData : List Nat := [48, 49, 50, 51, 52, 53, 54, 55]

/-- The 21×21 Annex I reference matrix for Version 1-M, as rendered by the
source test `test_annex_i_qr` with `'#'`/`'.'`. -/
def annexIQrFixture : String := String.intercalate "\n"
  [ "#######..#.##.#######"
  , "#.....#..####.#.....#"
  , "#.###.#.#.....#.###.#"
  , "#.###.#.##....#.###.#"
  , "#.###.#.#.###.#.###.#"
  , "#.....#.#...#.#.....#"
  , "#######.#.#.#.#######"
  , "........#..##........"
  , "#.#####..#..#.#####.."
  , "...#.#.##.#.#..#.##.."
  , "..#...##.#.#.#..#####"
  , "....#....#.....####.."
  , "...######..#.#..#...."
  , "........#.#####..##.."
  , "#######..##.#.##....."
  , "#.....#.#.#####...#.#"
  , "#.###.#.#...#..#.##.."
  , "#.###.#.##..#..#....."
  , "#.###.#.#.##.#..#.#.."
  , "#.....#........##.##."
  , "#######.####.#..#.#.." ]

/-- The 13×13 Annex I Micro reference matrix for Micro Version 2-L, as
rendered by the source test `test_annex_i_micro_qr`. -/
def annexIMicroQrFixture : String := String.intercalate "\n"
  [ "#######.#.#.#"
  , "#.....#.###.#"
  , "#.###.#..##.#"
  , "#.###.#..####"
  , "#.###.#.###.."
  , "#.....#.#...#"
  , "#######..####"
  , ".........##.."
  , "##.#....#...#"
  , ".##.#.#.#.#.#"
  , "###..#######."
  , "...#.#....##."
  , "###.#..##.###" ]

/-- The payload of 8000 `'a'` bytes of scenario S4. -/
def longPayload : List Nat := List.replicate 8000 97

/-- A payload of 38 digit bytes; its automatically selected version is
Normal 2 (it exceeds every Micro capacity and Version 1-M). -/
def data38 : List Nat := List.replicate 38 49

/-- A payload of 90 `'a'` bytes, exceeding the Version 5-M capacity. -/
def c10LongData : List Nat := List.replicate 90 97

/-- Concrete witness value: the code built by `with_version` for `"123"`
at Micro 1, level L. -/
def c2w_code : QrCode :=
  match QrCode.with_version [49, 50, 51] (Version.micro 1) EcLevel.L with
  | .ok c => c
  | .error _ => ⟨[], Version.micro 1, EcLevel.L, 0⟩

/-- Concrete witness value: the bit buffer selected by `encode_auto` for
`"1"` at level M. -/
def c3w_bits : Bits :=
  match encode_auto [49] EcLevel.M with
  | .ok b => b
  | .error _ => Bits.new (Version.micro 2)

/-- Concrete witness value: the code built by `with_version` for `"1"` at
Micro 1, level L. -/
def c7w_code : QrCode :=
  match QrCode.with_version [49] (Version.micro 1) EcLevel.L with
  | .ok c => c
  | .error _ => ⟨[], Version.micro 1, EcLevel.L, 0⟩

/-- Concrete witness value: the wrapper built by `Qr::from` for `"1"`. -/
def c8w_qr : Qr :=
  match Qr.from [49] with
  | .ok q => q
  | .error _ => ⟨⟨[], Version.micro 2, EcLevel.M, 0⟩⟩

/-- Concrete witness value: the code built by `QrCode::new` for `"1"`. -/
def c7w_new : QrCode :=
  match QrCode.new [49] with
  | .ok c => c
  | .error _ => ⟨[], Version.micro 2, EcLevel.M, 0⟩

/-- Concrete witness value: the code built by automatic version selection
for `"1"` at level L. -/
def c7w_ecl : QrCode :=
  match QrCode.with_error_correction_level [49] EcLevel.L with
  | .ok c => c
  | .error _ => ⟨[], Version.micro 1, EcLevel.L, 0⟩

/-- Concrete example value: the code built by `with_version` for `"123"` at
Micro 1 with the level-L shim (the legal Micro-1 combination). -/
def c6ok_code : QrCode :=
  match QrCode.with_version [49, 50, 51] (Version.micro 1) EcLevel.L with
  | .ok c => c
  | .error _ => ⟨[], Version.micro 1, EcLevel.L, 0⟩

/-- A small QrCode value (width 2, four modules) for exercising the index
operation. -/
def c9sample : QrCode :=
  ⟨[Color.light, Color.dark, Color.light, Color.dark],
   Version.normal 1, EcLevel.M, 2⟩

/-! ## Lemmas: the bit writer never changes its version -/

@[simp]
theorem exbind_ok {ε α β : Type} (a : α) (f : α → Except ε β) :
    (Except.ok a >>= f) = f a := rfl

@[simp]
theorem exbind_error {ε α β : Type} (e : ε) (f : α → Except ε β) :
    ((Except.error e : Except ε α) >>= f) = .error e := rfl

@[simp]
theorem expure_eq_ok {ε α : Type} (a : α) :
    (pure a : Except ε α) = .ok a := rfl

@[simp]
theorem Bits.version_push_number (b : Bits) (n val : Nat) :
    (b.push_number n val).version = b.version := rfl

@[simp]
theorem Bits.version_padBytesFill (b : Bits) (cap : Nat) :
    (b.padBytesFill cap).version = b.version := by
  unfold Bits.padBytesFill
  split <;> rfl

@[simp]
theorem Bits.version_padFinal (b : Bits) (cap : Nat) :
    (b.padFinal cap).version = b.version := by
  unfold Bits.padFinal
  split <;> rfl

@[simp]
theorem Bits.version_terminatorPad (b : Bits) (tsize cap : Nat) :
    (b.terminatorPad tsize cap).version = b.version := by
  unfold Bits.terminatorPad
  rw [Bits.version_padFinal, Bits.version_padBytesFill,
    Bits.version_push_number]

theorem Bits.version_push_number_checked {b b' : Bits} {n val : Nat}
    (h : b.push_number_checked n val = .ok b') : b'.version = b.version := by
  unfold Bits.push_number_checked at h
  split at h
  · cases h; rfl
  · cases h

theorem Bits.version_push_mode_indicator {b b' : Bits} {m : Mode}
    (h : b.push_mode_indicator m = .ok b') : b'.version = b.version := by
  unfold Bits.push_mode_indicator at h
  split at h <;> cases h <;> rfl

theorem Bits.version_push_header {b b' : Bits} {m : Mode} {len : Nat}
    (h : b.push_header m len = .ok b') : b'.version = b.version := by
  unfold Bits.push_header at h
  cases hm : b.push_mode_indicator m with
  | error e => rw [hm] at h; cases h
  | ok b1 =>
    rw [hm] at h
    simp only [exbind_ok] at h
    rw [Bits.version_push_number_checked h,
      Bits.version_push_mode_indicator hm]

theorem Bits.version_push_numeric_data {b b' : Bits} {data : List Nat}
    (h : b.push_numeric_data data = .ok b') : b'.version = b.version := by
  unfold Bits.push_numeric_data at h
  cases hh : b.push_header .numeric data.length with
  | error e => rw [hh] at h; cases h
  | ok b1 =>
    rw [hh] at h
    simp only [exbind_ok, pure, Except.pure] at h
    injection h with h
    subst h
    rw [show ∀ (l : List (List Nat)) (b1 : Bits),
        (l.foldl (fun acc chunk =>
          acc.push_number (chunk.length * 3 + 1)
            (chunk.foldl (fun a d => a * 10 + (d - 48)) 0)) b1).version
          = b1.version from ?_]
    · exact Bits.version_push_header hh
    · intro l
      induction l with
      | nil => intro b1; rfl
      | cons c t ih => intro b1; exact ih _

theorem Bits.version_push_alphanumeric_data {b b' : Bits} {data : List Nat}
    (h : b.push_alphanumeric_data data = .ok b') : b'.version = b.version := by
  unfold Bits.push_alphanumeric_data at h
  cases hh : b.push_header .alphanumeric data.length with
  | error e => rw [hh] at h; cases h
  | ok b1 =>
    rw [hh] at h
    simp only [exbind_ok] at h
    have main : ∀ (l : List (List Nat)) (b1 b2 : Bits),
        (l.foldlM (fun acc chunk => do
          match chunk with
          | [x, y] =>
            match alnumValue x, alnumValue y with
            | some vx, some vy => pure (acc.push_number 11 (vx * 45 + vy))
            | _, _ => .error .invalidCharacter
          | [x] =>
            match alnumValue x with
            | some vx => pure (acc.push_number 6 vx)
            | none => .error .invalidCharacter
          | _ => pure acc) b1 : QrResult Bits) = .ok b2 →
        b2.version = b1.version := by
      intro l
      induction l with
      | nil =>
        intro b1 b2 hf
        simp only [List.foldlM_nil, pure, Except.pure] at hf
        injection hf with hf
        subst hf; rfl
      | cons c t ih =>
        intro b1 b2 hf
        simp only [List.foldlM_cons] at hf
        split at hf <;> try split at hf
        all_goals
          first
            | (simp only [exbind_error] at hf; cases hf)
            | (simp only [pure, Except.pure, exbind_ok] at hf;
               first
                 | (rw [ih _ _ hf]; rfl)
                 | exact ih _ _ hf)
    rw [main _ _ _ h, Bits.version_push_header hh]

theorem Bits.version_push_byte_data {b b' : Bits} {data : List Nat}
    (h : b.push_byte_data data = .ok b') : b'.version = b.version := by
  unfold Bits.push_byte_data at h
  cases hh : b.push_header .byte data.length with
  | error e => rw [hh] at h; cases h
  | ok b1 =>
    rw [hh] at h
    simp only [exbind_ok, pure, Except.pure] at h
    injection h with h
    subst h
    rw [show ∀ (l : List Nat) (b1 : Bits),
        (l.foldl (fun acc byte => acc.push_number 8 byte) b1).version
          = b1.version from ?_]
    · exact Bits.version_push_header hh
    · intro l
      induction l with
      | nil => intro b1; rfl
      | cons c t ih => intro b1; exact ih _

theorem Bits.version_push_kanji_data {b b' : Bits} {data : List Nat}
    (h : b.push_kanji_data data = .ok b') : b'.version = b.version := by
  unfold Bits.push_kanji_data at h
  cases hh : b.push_header .kanji (data.length / 2) with
  | error e => rw [hh] at h; cases h
  | ok b1 =>
    rw [hh] at h
    simp only [exbind_ok] at h
    have main : ∀ (l : List (List Nat)) (b1 b2 : Bits),
        (l.foldlM (fun acc chunk =>
          match chunk with
          | [x, y] =>
            match kanjiValue x y with
            | some v => pure (acc.push_number 13 v)
            | none => .error .invalidCharacter
          | _ => .error .invalidCharacter) b1 : QrResult Bits) = .ok b2 →
        b2.version = b1.version := by
      intro l
      induction l with
      | nil =>
        intro b1 b2 hf
        simp only [List.foldlM_nil, pure, Except.pure] at hf
        injection hf with hf
        subst hf; rfl
      | cons c t ih =>
        intro b1 b2 hf
        simp only [List.foldlM_cons] at hf
        split at hf <;> try split at hf
        all_goals
          first
            | (simp only [exbind_error] at hf; cases hf)
            | (simp only [pure, Except.pure, exbind_ok] at hf;
               rw [ih _ _ hf]; rfl)
    rw [main _ _ _ h, Bits.version_push_header hh]

theorem Bits.version_pushSegment {b b' : Bits} {data : List Nat} {s : Segment}
    (h : b.pushSegment data s = .ok b') : b'.version = b.version := by
  unfold Bits.pushSegment at h
  split at h
  · exact Bits.version_push_numeric_data h
  · exact Bits.version_push_alphanumeric_data h
  · exact Bits.version_push_byte_data h
  · exact Bits.version_push_kanji_data h

theorem Bits.version_pushSegments {data : List Nat} :
    ∀ {segs : List Segment} {b b' : Bits},
    (segs.foldlM (fun acc s => acc.pushSegment data s) b : QrResult Bits)
      = .ok b' → b'.version = b.version := by
  intro segs
  induction segs with
  | nil =>
    intro b b' h
    simp only [List.foldlM_nil, pure, Except.pure] at h
    injection h with h
    subst h; rfl
  | cons s t ih =>
    intro b b' h
    simp only [List.foldlM_cons] at h
    cases hs : b.pushSegment data s with
    | error e => rw [hs] at h; cases h
    | ok b1 =>
      rw [hs] at h
      simp only [exbind_ok] at h
      rw [ih h, Bits.version_pushSegment hs]

theorem Bits.version_push_optimal_data {b b' : Bits} {data : List Nat}
    (h : b.push_optimal_data data = .ok b') : b'.version = b.version := by
  unfold Bits.push_optimal_data at h
  exact Bits.version_pushSegments h

theorem Bits.version_push_terminator {b b' : Bits} {e : EcLevel}
    (h : b.push_terminator e = .ok b') : b'.version = b.version := by
  unfold Bits.push_terminator at h
  cases hd : dataLengths b.version e with
  | error err => rw [hd] at h; cases h
  | ok cap =>
    rw [hd] at h
    simp only [exbind_ok] at h
    split at h
    · cases h
    · simp only [pure, Except.pure] at h
      injection h with h
      subst h
      exact Bits.version_terminatorPad _ _ _

/-! ## Lemmas: every canvas operation preserves the grid dimensions -/

theorem Canvas.width_foldl {α : Type} {f : Canvas → α → Canvas}
    (hf : ∀ c a, (f c a).width = c.width) :
    ∀ (l : List α) (c : Canvas), (l.foldl f c).width = c.width := by
  intro l
  induction l with
  | nil => intro c; rfl
  | cons a t ih => intro c; rw [List.foldl_cons, ih, hf]

@[simp]
theorem Canvas.width_setCode (c : Canvas) (i v : Nat) :
    (c.setCode i v).width = c.width := rfl

@[simp]
theorem Canvas.width_put (c : Canvas) (x y : Nat) (col : Color) :
    (c.put x y col).width = c.width := rfl

@[simp]
theorem Canvas.width_putData (c : Canvas) (x y : Nat) (col : Color) :
    (c.putData x y col).width = c.width := rfl

@[simp]
theorem Canvas.width_drawFinderAt (c : Canvas) (cx cy xlo xhi ylo yhi : Nat) :
    (c.drawFinderAt cx cy xlo xhi ylo yhi).width = c.width := by
  unfold Canvas.drawFinderAt
  apply Canvas.width_foldl
  intro c1 dy
  apply Canvas.width_foldl
  intro c2 dx
  rfl

@[simp]
theorem Canvas.width_drawFinderPatterns (c : Canvas) :
    c.drawFinderPatterns.width = c.width := by
  unfold Canvas.drawFinderPatterns
  split
  · exact Canvas.width_drawFinderAt _ _ _ _ _ _ _
  · rw [Canvas.width_drawFinderAt, Canvas.width_drawFinderAt,
      Canvas.width_drawFinderAt]

@[simp]
theorem Canvas.width_drawAlignmentAt (c : Canvas) (cx cy : Nat) :
    (c.drawAlignmentAt cx cy).width = c.width := by
  unfold Canvas.drawAlignmentAt
  apply Canvas.width_foldl
  intro c1 dy
  apply Canvas.width_foldl
  intro c2 dx
  rfl

@[simp]
theorem Canvas.width_alignFold (c : Canvas) (coords : List Nat)
    (last : Nat) :
    (coords.foldl
      (fun acc a =>
        coords.foldl
          (fun acc2 b =>
            if (a = 6 ∧ b = 6) ∨ (a = 6 ∧ b = last) ∨ (a = last ∧ b = 6)
            then acc2
            else acc2.drawAlignmentAt a b)
          acc)
      c).width = c.width := by
  apply Canvas.width_foldl
  intro c1 a
  apply Canvas.width_foldl
  intro c2 b
  split
  · rfl
  · exact Canvas.width_drawAlignmentAt _ _ _

@[simp]
theorem Canvas.width_drawAlignmentPatterns (c : Canvas) :
    c.drawAlignmentPatterns.width = c.width := by
  unfold Canvas.drawAlignmentPatterns
  split
  · rfl
  · rfl
  · split
    · exact Canvas.width_drawAlignmentAt _ _ _
    · exact Canvas.width_alignFold _ _ _

@[simp]
theorem Canvas.width_drawTimingLine (c : Canvas) (line lo hi : Nat) :
    (c.drawTimingLine line lo hi).width = c.width := by
  unfold Canvas.drawTimingLine
  apply Canvas.width_foldl
  intro c1 i
  rfl

@[simp]
theorem Canvas.width_drawTimingPatterns (c : Canvas) :
    c.drawTimingPatterns.width = c.width := by
  unfold Canvas.drawTimingPatterns
  split <;> exact Canvas.width_drawTimingLine _ _ _ _

@[simp]
theorem Canvas.width_drawNumber (c : Canvas) (value n : Nat)
    (coords : List (Nat × Nat)) :
    (c.drawNumber value n coords).width = c.width := by
  unfold Canvas.drawNumber
  apply Canvas.width_foldl
  intro c1 p
  rfl

@[simp]
theorem Canvas.width_drawFormatRaw (c : Canvas) (value : Nat) :
    (c.drawFormatRaw value).width = c.width := by
  unfold Canvas.drawFormatRaw
  split
  · exact Canvas.width_drawNumber _ _ _ _
  · rw [Canvas.width_put, Canvas.width_drawNumber, Canvas.width_drawNumber]

@[simp]
theorem Canvas.width_drawReservedFormatInfo (c : Canvas) :
    c.drawReservedFormatInfo.width = c.width := by
  unfold Canvas.drawReservedFormatInfo
  exact Canvas.width_drawFormatRaw _ _

@[simp]
theorem Canvas.width_drawVersionInfoPatterns (c : Canvas) :
    c.drawVersionInfoPatterns.width = c.width := by
  unfold Canvas.drawVersionInfoPatterns
  split
  · split
    · rw [Canvas.width_drawNumber, Canvas.width_drawNumber]
    · rfl
  · rfl

@[simp]
theorem Canvas.width_draw_all_functional_patterns (c : Canvas) :
    c.draw_all_functional_patterns.width = c.width := by
  unfold Canvas.draw_all_functional_patterns
  rw [Canvas.width_drawVersionInfoPatterns, Canvas.width_drawTimingPatterns,
    Canvas.width_drawReservedFormatInfo, Canvas.width_drawAlignmentPatterns,
    Canvas.width_drawFinderPatterns]

theorem Canvas.width_drawDataGo :
    ∀ (coords : List (Nat × Nat)) (c : Canvas) (bits : List Bool),
    (drawDataGo coords c bits).width = c.width := by
  intro coords
  induction coords with
  | nil => intro c bits; cases bits <;> rfl
  | cons p t ih =>
    intro c bits
    cases bits with
    | nil => rfl
    | cons bit rest =>
      unfold drawDataGo
      split
      · rw [ih]; rfl
      · exact ih _ _

@[simp]
theorem Canvas.width_draw_data (c : Canvas) (data ecd : List Nat) :
    (c.draw_data data ecd).width = c.width := by
  unfold Canvas.draw_data
  exact Canvas.width_drawDataGo _ _ _

@[simp]
theorem Canvas.width_apply_mask (c : Canvas) (idx : Nat) :
    (c.apply_mask idx).width = c.width := by
  unfold Canvas.apply_mask
  rw [Canvas.width_drawFormatRaw]
  apply Canvas.width_foldl
  intro c2 i
  rfl

theorem Canvas.width_chooseMin {w : Nat} :
    ∀ (l : List (Canvas × Nat)) (p : Canvas × Nat), p.1.width = w →
    (∀ q ∈ l, q.1.width = w) →
    ((l.foldl (fun best k => if k.2 < best.2 then k else best) p).1.width = w) := by
  intro l
  induction l with
  | nil => intro p hp _; exact hp
  | cons q t ih =>
    intro p hp hl
    rw [List.foldl_cons]
    refine ih _ ?_ (fun r hr => hl r (List.mem_cons_of_mem _ hr))
    split
    · exact hl q (List.mem_cons_self _ _)
    · exact hp

theorem Canvas.width_chooseMax {w : Nat} :
    ∀ (l : List (Canvas × Nat)) (p : Canvas × Nat), p.1.width = w →
    (∀ q ∈ l, q.1.width = w) →
    ((l.foldl (fun best k => if k.2 > best.2 then k else best) p).1.width = w) := by
  intro l
  induction l with
  | nil => intro p hp _; exact hp
  | cons q t ih =>
    intro p hp hl
    rw [List.foldl_cons]
    refine ih _ ?_ (fun r hr => hl r (List.mem_cons_of_mem _ hr))
    split
    · exact hl q (List.mem_cons_self _ _)
    · exact hp

@[simp]
theorem Canvas.width_apply_best_mask (c : Canvas) :
    c.apply_best_mask.width = c.width := by
  unfold Canvas.apply_best_mask
  split
  · split
    · rfl
    · rename_i cand rest heq
      refine Canvas.width_chooseMin _ _ ?_ ?_
      · have hmem : cand ∈ (List.range 8).map
            (fun i => (c.apply_mask i, (c.apply_mask i).penalty)) := by
          rw [heq]; exact List.mem_cons_self _ _
        obtain ⟨i, _, hi⟩ := List.mem_map.mp hmem
        rw [← hi]
        exact Canvas.width_apply_mask _ _
      · intro q hq
        have hmem : q ∈ (List.range 8).map
            (fun i => (c.apply_mask i, (c.apply_mask i).penalty)) := by
          rw [heq]; exact List.mem_cons_of_mem _ hq
        obtain ⟨i, _, hi⟩ := List.mem_map.mp hmem
        rw [← hi]
        exact Canvas.width_apply_mask _ _
  · split
    · rfl
    · rename_i cand rest heq
      refine Canvas.width_chooseMax _ _ ?_ ?_
      · have hmem : cand ∈ (List.range 4).map
            (fun i => (c.apply_mask i, (c.apply_mask i).microScore)) := by
          rw [heq]; exact List.mem_cons_self _ _
        obtain ⟨i, _, hi⟩ := List.mem_map.mp hmem
        rw [← hi]
        exact Canvas.width_apply_mask _ _
      · intro q hq
        have hmem : q ∈ (List.range 4).map
            (fun i => (c.apply_mask i, (c.apply_mask i).microScore)) := by
          rw [heq]; exact List.mem_cons_of_mem _ hq
        obtain ⟨i, _, hi⟩ := List.mem_map.mp hmem
        rw [← hi]
        exact Canvas.width_apply_mask _ _

@[simp]
theorem Canvas.length_into_colors (c : Canvas) :
    c.into_colors.length = c.width * c.width := by
  unfold Canvas.into_colors
  rw [List.length_map, List.length_range]

/-- The shape of every successful `with_bits` result: the version and ec
level are carried over from the bit buffer, the width is the version's
width, and the module vector has `width²` entries. -/
theorem QrCode.with_bits_shape {bits : Bits} {e : EcLevel} {c : QrCode}
    (h : QrCode.with_bits bits e = .ok c) :
    c.version = bits.version ∧ c.ec_level = e ∧
    c.width = bits.version.width ∧
    c.content.length = c.width * c.width := by
  simp only [QrCode.with_bits] at h
  cases hc : construct_codewords bits.into_bytes bits.version e with
  | error err => rw [hc] at h; cases h
  | ok pair =>
    rw [hc] at h
    obtain ⟨d, ecd⟩ := pair
    simp only [exbind_ok, pure, Except.pure] at h
    injection h with h
    subst h
    refine ⟨rfl, rfl, rfl, ?_⟩
    have hw : (((Canvas.new bits.version e).draw_all_functional_patterns.draw_data
        d ecd).apply_best_mask).width = bits.version.width := by
      rw [Canvas.width_apply_best_mask, Canvas.width_draw_data,
        Canvas.width_draw_all_functional_patterns]
      rfl
    rw [Canvas.length_into_colors, hw]

/-- The shape of every successful `with_version` result: the requested
version and ec level are carried over, the width is the version's width,
and the module vector has `width²` entries. -/
theorem QrCode.with_version_shape {data : List Nat} {v : Version}
    {e : EcLevel} {c : QrCode}
    (h : QrCode.with_version data v e = .ok c) :
    c.version = v ∧ c.ec_level = e ∧ c.width = v.width ∧
    c.content.length = c.width * c.width := by
  simp only [QrCode.with_version] at h
  cases h1 : (Bits.new v).push_optimal_data data with
  | error err => rw [h1] at h; cases h
  | ok b1 =>
    rw [h1] at h
    simp only [exbind_ok] at h
    cases h2 : b1.push_terminator e with
    | error err => rw [h2] at h; cases h
    | ok b2 =>
      rw [h2] at h
      simp only [exbind_ok] at h
      have hs := QrCode.with_bits_shape h
      have hv2 : b2.version = v := by
        rw [Bits.version_push_terminator h2, Bits.version_push_optimal_data h1]
        rfl
      rw [hv2] at hs
      exact hs

/-! ## Lemmas: automatic version selection is a first-fit search -/

theorem encodeAutoAt_none_fits {data : List Nat} {e : EcLevel}
    {segs : List Segment} {v : Version}
    (h : encodeAutoAt data e segs v = none) :
    versionFitsSegs e segs v = false := by
  cases hd : dataLengths v e with
  | error err =>
    unfold versionFitsSegs
    rw [hd]
  | ok cap =>
    unfold encodeAutoAt at h
    rw [hd] at h
    have h2 : (if totalEncodedLen (optimizeSegments v segs) v ≤ cap then
        some (do
          let b ← (optimizeSegments v segs).foldlM
            (fun (acc : Bits) s => acc.pushSegment data s) (Bits.new v)
          b.push_terminator e)
        else none) = none := h
    unfold versionFitsSegs
    rw [hd]
    split at h2
    · cases h2
    · rename_i hfit
      exact decide_eq_false hfit

theorem encodeAutoAt_some_fits {data : List Nat} {e : EcLevel}
    {segs : List Segment} {v : Version} {r : QrResult Bits}
    (h : encodeAutoAt data e segs v = some r) :
    versionFitsSegs e segs v = true ∧
    r = (do
      let b ← (optimizeSegments v segs).foldlM
        (fun (acc : Bits) s => acc.pushSegment data s) (Bits.new v)
      b.push_terminator e) := by
  cases hd : dataLengths v e with
  | error err =>
    unfold encodeAutoAt at h
    rw [hd] at h
    cases h
  | ok cap =>
    unfold encodeAutoAt at h
    rw [hd] at h
    have h2 : (if totalEncodedLen (optimizeSegments v segs) v ≤ cap then
        some (do
          let b ← (optimizeSegments v segs).foldlM
            (fun (acc : Bits) s => acc.pushSegment data s) (Bits.new v)
          b.push_terminator e)
        else none) = some r := h
    split at h2
    · rename_i hfit
      injection h2 with h2
      refine ⟨?_, h2.symm⟩
      unfold versionFitsSegs
      rw [hd]
      exact decide_eq_true hfit
    · cases h2

theorem encodeAutoGo_version {data : List Nat} {e : EcLevel}
    {segs : List Segment} :
    ∀ {vs : List Version} {b : Bits}, encodeAutoGo data e segs vs = .ok b →
    vs.find? (versionFitsSegs e segs) = some b.version := by
  intro vs
  induction vs with
  | nil => intro b h; cases h
  | cons v rest ih =>
    intro b h
    unfold encodeAutoGo at h
    cases ha : encodeAutoAt data e segs v with
    | none =>
      rw [ha] at h
      have h2 : encodeAutoGo data e segs rest = .ok b := h
      rw [List.find?_cons_of_neg]
      · exact ih h2
      · rw [encodeAutoAt_none_fits ha]
        exact Bool.false_ne_true
    | some r =>
      rw [ha] at h
      have h2 : r = .ok b := h
      obtain ⟨hfit, hr⟩ := encodeAutoAt_some_fits ha
      rw [hr] at h2
      cases hp : ((optimizeSegments v segs).foldlM
          (fun (acc : Bits) s => acc.pushSegment data s) (Bits.new v) :
          QrResult Bits) with
      | error err2 => rw [hp] at h2; cases h2
      | ok b0 =>
        rw [hp] at h2
        simp only [exbind_ok] at h2
        have hbv : b.version = v := by
          rw [Bits.version_push_terminator h2,
            Bits.version_pushSegments hp]
          rfl
        rw [List.find?_cons_of_pos _ hfit, hbv]

theorem encodeAutoGo_none {data : List Nat} {e : EcLevel}
    {segs : List Segment} :
    ∀ {vs : List Version}, vs.find? (versionFitsSegs e segs) = none →
    encodeAutoGo data e segs vs = .error .dataTooLong := by
  intro vs
  induction vs with
  | nil => intro _; rfl
  | cons v rest ih =>
    intro h
    rw [List.find?_cons] at h
    unfold encodeAutoGo
    cases ha : encodeAutoAt data e segs v with
    | none =>
      refine ih ?_
      cases hf : versionFitsSegs e segs v with
      | false => rw [hf] at h; exact h
      | true => rw [hf] at h; cases h
    | some r =>
      exfalso
      obtain ⟨hfit, _⟩ := encodeAutoAt_some_fits ha
      rw [hfit] at h
      cases h

/-! ## Lemmas: parsing uniform payloads -/

theorem classifyAll_replicate (b : Nat) (hk : isKanjiPair b b = false) :
    ∀ n, classifyAll (List.replicate n b) = List.replicate n (classifyByte b)
  | 0 => rfl
  | 1 => by simp [classifyAll]
  | (n + 2) => by
    have ih := classifyAll_replicate b hk (n + 1)
    rw [List.replicate_succ, List.replicate_succ]
    simp only [classifyAll, hk, Bool.false_eq_true, if_false]
    rw [← List.replicate_succ, ih, ← List.replicate_succ]

theorem isKanjiPair_digits {a b : Nat} (ha : isDigitByte a = true)
    (hb : isDigitByte b = true) : isKanjiPair a b = false := by
  simp only [isDigitByte, Bool.and_eq_true, decide_eq_true_eq] at ha hb
  have hv : a * 256 + b < 0x8140 := by omega
  unfold isKanjiPair kanjiValue
  have h1 : (decide (0x8140 ≤ a * 256 + b) && decide (a * 256 + b ≤ 0x9FFC))
      = false := by
    rw [decide_eq_false (by omega)]
    rfl
  have h2 : (decide (0xE040 ≤ a * 256 + b) && decide (a * 256 + b ≤ 0xEBBF))
      = false := by
    rw [decide_eq_false (by omega)]
    rfl
  simp only [h1, h2, Bool.false_eq_true, if_false]
  rfl

theorem classifyByte_digit {a : Nat} (ha : isDigitByte a = true) :
    classifyByte a = Mode.numeric := by
  unfold classifyByte
  rw [ha]
  rfl

theorem classifyAll_digits :
    ∀ (ds : List Nat), ds.all isDigitByte = true →
    classifyAll ds = List.replicate ds.length Mode.numeric
  | [], _ => rfl
  | [a], h => by
    simp only [List.all_cons, List.all_nil, Bool.and_true] at h
    simp [classifyAll, classifyByte_digit h]
  | a :: b :: t, h => by
    simp only [List.all_cons, Bool.and_eq_true] at h
    obtain ⟨ha, hb, ht⟩ := h
    have hrest : (b :: t).all isDigitByte = true := by
      simp only [List.all_cons, Bool.and_eq_true]
      exact ⟨hb, ht⟩
    have ih := classifyAll_digits (b :: t) hrest
    simp only [classifyAll, isKanjiPair_digits ha hb, Bool.false_eq_true,
      if_false, classifyByte_digit ha, ih]
    rfl

theorem groupRunsGo_replicate (m : Mode) :
    ∀ (n i : Nat) (s : Segment), s.mode = m →
    groupRunsGo i (some s) (List.replicate n m) =
      [⟨m, s.lo, if n = 0 then s.hi else i + n⟩]
  | 0, i, s, hs => by
    cases s
    simp only at hs
    subst hs
    simp [groupRunsGo]
  | (n + 1), i, s, hs => by
    have ih := groupRunsGo_replicate m n (i + 1)
      ⟨m, s.lo, i + 1⟩ rfl
    rw [List.replicate_succ]
    unfold groupRunsGo
    have hsm : s.mode = m := hs
    rw [if_pos hsm]
    have heq : { s with hi := i + 1 } = (⟨m, s.lo, i + 1⟩ : Segment) := by
      cases s
      simp only at hsm
      subst hsm
      rfl
    rw [heq, ih]
    cases n with
    | zero => simp
    | succ k =>
      simp only [Nat.succ_ne_zero, if_false]
      have harith : i + 1 + (k + 1) = i + (k + 1 + 1) := by omega
      rw [harith]

theorem parseSegments_replicate (b : Nat) (hk : isKanjiPair b b = false)
    (n : Nat) (hn : 1 ≤ n) :
    parseSegments (List.replicate n b) = [⟨classifyByte b, 0, n⟩] := by
  unfold parseSegments
  rw [classifyAll_replicate b hk n]
  cases n with
  | zero => omega
  | succ k =>
    rw [List.replicate_succ]
    unfold groupRunsGo
    rw [groupRunsGo_replicate (classifyByte b) k 1 ⟨classifyByte b, 0, 1⟩ rfl]
    cases k with
    | zero => rfl
    | succ j =>
      simp only [Nat.succ_ne_zero, if_false]
      have harith : 1 + (j + 1) = j + 1 + 1 := by omega
      rw [harith]

theorem parseSegments_digits (ds : List Nat) (h : ds.all isDigitByte = true)
    (hn : 1 ≤ ds.length) :
    parseSegments ds = [⟨Mode.numeric, 0, ds.length⟩] := by
  unfold parseSegments
  rw [classifyAll_digits ds h]
  cases hds : ds.length with
  | zero => omega
  | succ k =>
    rw [List.replicate_succ]
    unfold groupRunsGo
    rw [groupRunsGo_replicate Mode.numeric k 1 ⟨Mode.numeric, 0, 1⟩ rfl]
    cases k with
    | zero => rfl
    | succ j =>
      simp only [Nat.succ_ne_zero, if_false]
      have harith : 1 + (j + 1) = j + 1 + 1 := by omega
      rw [harith]

theorem optimizeSegments_single (v : Version) (s : Segment) :
    optimizeSegments v [s] = [s] := by
  simp [optimizeSegments, optimizeGo, mergePass, mergePassGo]

/-! ## Lemmas: numeric payloads on Micro version 1 -/

theorem push_optimal_digits {ds : List Nat} (hd : ds.all isDigitByte = true)
    (hl : ds.length ≤ 7) :
    ∃ b1, (Bits.new (Version.micro 1)).push_optimal_data ds = .ok b1 := by
  unfold Bits.push_optimal_data
  cases hlen : ds.length with
  | zero =>
    have : ds = [] := List.length_eq_zero.mp hlen
    subst this
    exact ⟨_, rfl⟩
  | succ k =>
    rw [parseSegments_digits ds hd (by omega), optimizeSegments_single]
    simp only [List.foldlM_cons, List.foldlM_nil]
    unfold Bits.pushSegment
    simp only [List.drop_zero, Nat.sub_zero, List.take_length]
    unfold Bits.push_numeric_data
    unfold Bits.push_header
    have hmode : (Bits.new (Version.micro 1)).push_mode_indicator
        Mode.numeric = .ok (Bits.new (Version.micro 1)) := rfl
    rw [hmode]
    simp only [exbind_ok]
    unfold Bits.push_number_checked
    rw [if_pos (by
      show ds.length < 2 ^ Mode.length_bits_count Mode.numeric
        (Bits.new (Version.micro 1)).version
      have : Mode.length_bits_count Mode.numeric
          (Bits.new (Version.micro 1)).version = 3 := rfl
      rw [this]
      omega)]
    simp only [exbind_ok, expure_eq_ok]
    exact ⟨_, rfl⟩

/-! ## Shared helper for the construction-shape claims -/

theorem with_error_correction_level_widths {data : List Nat} {e : EcLevel}
    {c : QrCode} (h : QrCode.with_error_correction_level data e = .ok c) :
    c.width = c.version.width ∧ c.content.length = c.width * c.width := by
  simp only [QrCode.with_error_correction_level] at h
  cases hb : encode_auto data e with
  | error err => rw [hb] at h; cases h
  | ok b =>
    rw [hb] at h
    simp only [exbind_ok] at h
    obtain ⟨hv, _, hw, hl⟩ := QrCode.with_bits_shape h
    exact ⟨by rw [hw, hv], hl⟩

/-! ## The claims -/

set_option maxHeartbeats 120000000 in
/-- C1. Encoding the payload `"01234567"` with `with_version` at Normal
version 1, EC level M yields exactly the 21×21 Annex I reference module
matrix, and encoding it at Micro version 2, EC level L yields exactly the
13×13 Annex I Micro reference matrix, both rendered as `'#'`/`'.'` strings
the way the source tests do. -/
theorem c1_annex_i_fixtures :
    (QrCode.with_version annexData (Version.normal 1) EcLevel.M).map
      (fun c => c.to_debug_str '#' '.') = .ok annexIQrFixture ∧
    (QrCode.with_version annexData (Version.micro 2) EcLevel.L).map
      (fun c => c.to_debug_str '#' '.') = .ok annexIMicroQrFixture :=
  ⟨by decide, by decide⟩

/-- C2. Every `QrCode` built successfully by `new`,
`with_error_correction_level`, `with_version` or `with_bits` has `width`
equal to its version's width (17+4n for Normal n, 9+2n for Micro n), and
its `to_colors`/`into_colors` module vector has `width²` entries. -/
theorem c2_width_invariants {c : QrCode}
    (h : (∃ data, QrCode.new data = .ok c) ∨
      (∃ data e, QrCode.with_error_correction_level data e = .ok c) ∨
      (∃ data v e, QrCode.with_version data v e = .ok c) ∨
      (∃ bits e, QrCode.with_bits bits e = .ok c)) :
    c.width = c.version.width ∧
    (∀ n, c.version = Version.normal n → c.width = 17 + 4 * n) ∧
    (∀ n, c.version = Version.micro n → c.width = 9 + 2 * n) ∧
    c.to_colors.length = c.width * c.width ∧
    c.into_colors.length = c.width * c.width := by
  have key : c.width = c.version.width ∧
      c.content.length = c.width * c.width := by
    rcases h with ⟨data, h⟩ | ⟨data, e, h⟩ | ⟨data, v, e, h⟩ | ⟨bits, e, h⟩
    · exact with_error_correction_level_widths h
    · exact with_error_correction_level_widths h
    · obtain ⟨hv, _, hw, hl⟩ := QrCode.with_version_shape h
      exact ⟨by rw [hw, hv], hl⟩
    · obtain ⟨hv, _, hw, hl⟩ := QrCode.with_bits_shape h
      exact ⟨by rw [hw, hv], hl⟩
  obtain ⟨h1, h2⟩ := key
  refine ⟨h1, ?_, ?_, h2, h2⟩
  · intro n hn
    rw [h1, hn]
    show 4 * n + 17 = 17 + 4 * n
    omega
  · intro n hn
    rw [h1, hn]
    show 2 * n + 9 = 9 + 2 * n
    omega

set_option maxHeartbeats 4000000 in
theorem c2_width_invariants_witness :
    c2w_code.width = c2w_code.version.width ∧
    c2w_code.to_colors.length = c2w_code.width * c2w_code.width := by
  have h0 : QrCode.with_version [49, 50, 51] (Version.micro 1) EcLevel.L =
      .ok c2w_code := by decide
  have h := c2_width_invariants
    (Or.inr (Or.inr (Or.inl ⟨[49, 50, 51], Version.micro 1, EcLevel.L, h0⟩)))
  exact ⟨h.1, h.2.2.2.1⟩

/-- C3. Automatic version selection tries versions in ascending order
`{Micro 1..4, Normal 1..40}` restricted to those supporting the requested
EC level, treating a version that does not fit as "try the next": when it
succeeds, the chosen version is the smallest fitting one (the first-fit
search `smallestFittingVersion` stated from the spec's words), and when no
version fits it fails with `DataTooLong`. -/
theorem c3_auto_version_smallest (data : List Nat) (e : EcLevel) :
    (∀ b, encode_auto data e = .ok b →
      smallestFittingVersion data e = some b.version) ∧
    (smallestFittingVersion data e = none →
      encode_auto data e = .error .dataTooLong) := by
  constructor
  · intro b h
    exact encodeAutoGo_version h
  · intro h
    exact encodeAutoGo_none h

theorem c3_auto_version_smallest_witness :
    encode_auto [49] EcLevel.M = .ok c3w_bits ∧
    smallestFittingVersion [49] EcLevel.M = some c3w_bits.version ∧
    c3w_bits.version = Version.micro 2 := by
  have h0 : encode_auto [49] EcLevel.M = .ok c3w_bits := by decide
  exact ⟨h0, (c3_auto_version_smallest [49] EcLevel.M).1 c3w_bits h0,
    by decide⟩

/-- C4 (counterexample). At Normal version 1, EC level M the block tables
give one block of 16 data codewords with 10 EC codewords (26 total), so the
claimed formula `floor((total - data) / 2)` gives `(26 - 16) / 2 = 5`; the
code returns 4 (it subtracts the misdecode-protection reserve first). -/
theorem c4_max_allowed_counterexample :
    (⟨[], Version.normal 1, EcLevel.M, 21⟩ : QrCode).max_allowed_errors =
      some 4 ∧
    fetchDataBytesPerBlock (Version.normal 1) EcLevel.M = .ok (16, 1, 0, 0) ∧
    fetchEcBytesPerBlock (Version.normal 1) EcLevel.M = .ok 10 ∧
    16 + 10 = 26 ∧ (26 - 16) / 2 = 5 ∧ (4 : Nat) ≠ 5 := by decide

/-- C4 (amended). `max_allowed_errors` returns
`floor((blocks × ec_bytes_per_block − p) / 2)` where `p` is the
misdecode-protection reserve of the `(version, ec_level)` pair; in
particular for a QrCode at Normal version 1, EC level M it returns 4. -/
theorem c4_max_allowed_errors_amended (c : QrCode) (d1 c1 d2 c2 ecb : Nat)
    (hd : fetchDataBytesPerBlock c.version c.ec_level = .ok (d1, c1, d2, c2))
    (he : fetchEcBytesPerBlock c.version c.ec_level = .ok ecb) :
    c.max_allowed_errors =
      some (((c1 + c2) * ecb - misdecodeProtection c.version c.ec_level) / 2) ∧
    (c.version = Version.normal 1 → c.ec_level = EcLevel.M →
      c.max_allowed_errors = some 4) := by
  constructor
  · unfold QrCode.max_allowed_errors max_allowed_errors
    rw [he, hd]
    rfl
  · intro hv hec
    unfold QrCode.max_allowed_errors
    rw [hv, hec]
    rfl

theorem c4_max_allowed_errors_witness :
    (⟨[], Version.normal 1, EcLevel.M, 21⟩ : QrCode).max_allowed_errors =
      some (((1 + 0) * 10 -
        misdecodeProtection (Version.normal 1) EcLevel.M) / 2) ∧
    (⟨[], Version.normal 1, EcLevel.M, 21⟩ : QrCode).max_allowed_errors =
      some 4 := by
  have h := c4_max_allowed_errors_amended
    ⟨[], Version.normal 1, EcLevel.M, 21⟩ 16 1 0 0 10 (by decide) (by decide)
  exact ⟨h.1, h.2 rfl rfl⟩

/-- C5. Auto-version encoding of 8000 `'a'` bytes at EC level M fails with
`DataTooLong`: the single byte-mode segment does not fit any version, in
particular not Version 40 at M. -/
theorem c5_data_too_long :
    QrCode.new longPayload = .error .dataTooLong ∧
    QrCode.with_error_correction_level longPayload EcLevel.M =
      .error .dataTooLong ∧
    versionFits longPayload EcLevel.M (Version.normal 40) = false := by
  have hp : parseSegments longPayload = [⟨Mode.byte, 0, 8000⟩] :=
    parseSegments_replicate 97 (by decide) 8000 (by omega)
  have hgo : encodeAutoGo longPayload EcLevel.M
      ([⟨Mode.byte, 0, 8000⟩] : List Segment) versionOrder =
      .error .dataTooLong := by decide
  have he : QrCode.with_error_correction_level longPayload EcLevel.M =
      .error .dataTooLong := by
    unfold QrCode.with_error_correction_level encode_auto
    rw [hp, hgo]
    rfl
  refine ⟨he, he, ?_⟩
  unfold versionFits
  rw [hp]
  decide

/-- C6 (counterexample). `with_version` at Micro 1 with ec_level M does not
return `InvalidVersion` for every payload: the payload `"A"` needs the
alphanumeric mode, which Micro 1 does not support, and that check runs
before the `(version, ec_level)` legality check, so the call fails with
`UnsupportedCharacterSet` instead. -/
theorem c6_micro1_counterexample :
    QrCode.with_version [65] (Version.micro 1) EcLevel.M =
      .error .unsupportedCharacterSet ∧
    QrError.unsupportedCharacterSet ≠ QrError.invalidVersion := by decide

/-- C6 (amended). For every payload of at most 5 digit bytes (so that the
bit writer itself does not fail first), `with_version` at Micro 1 with any
ec_level other than the L shim returns `InvalidVersion`; with ec_level L a
fitting payload such as `"123"` succeeds at Micro 1. -/
theorem c6_micro1_ec_amended (ds : List Nat) (e : EcLevel)
    (hdig : ds.all isDigitByte = true) (hlen : ds.length ≤ 5)
    (hne : e ≠ EcLevel.L) :
    QrCode.with_version ds (Version.micro 1) e = .error .invalidVersion ∧
    (QrCode.with_version [49, 50, 51] (Version.micro 1) EcLevel.L =
      .ok c6ok_code ∧ c6ok_code.version = Version.micro 1) := by
  constructor
  · obtain ⟨b1, hb1⟩ := push_optimal_digits hdig (by omega)
    simp only [QrCode.with_version]
    rw [hb1]
    simp only [exbind_ok]
    have hv : b1.version = Version.micro 1 := by
      rw [Bits.version_push_optimal_data hb1]
      rfl
    unfold Bits.push_terminator
    rw [hv]
    have hdl : dataLengths (Version.micro 1) e = .error .invalidVersion := by
      cases e with
      | L => exact absurd rfl hne
      | M => rfl
      | Q => rfl
      | H => rfl
    rw [hdl]
    rfl
  · exact ⟨by decide, by decide⟩

theorem c6_micro1_ec_witness :
    QrCode.with_version [49] (Version.micro 1) EcLevel.M =
      .error .invalidVersion ∧
    QrCode.with_version [49] (Version.micro 1) EcLevel.Q =
      .error .invalidVersion ∧
    QrCode.with_version [49] (Version.micro 1) EcLevel.H =
      .error .invalidVersion := by
  refine ⟨?_, ?_, ?_⟩
  · exact (c6_micro1_ec_amended [49] EcLevel.M (by decide) (by decide)
      (by decide)).1
  · exact (c6_micro1_ec_amended [49] EcLevel.Q (by decide) (by decide)
      (by decide)).1
  · exact (c6_micro1_ec_amended [49] EcLevel.H (by decide) (by decide)
      (by decide)).1

/-- C7. Encoding is deterministic: two calls of the same encoding entry
point (`new`, `with_error_correction_level` or `with_version`) with the
same arguments produce QrCodes with identical module vectors. -/
theorem c7_deterministic (data : List Nat) (v : Version) (e : EcLevel)
    {a1 a2 a3 a4 a5 a6 : QrCode}
    (h1 : QrCode.new data = .ok a1) (h2 : QrCode.new data = .ok a2)
    (h3 : QrCode.with_error_correction_level data e = .ok a3)
    (h4 : QrCode.with_error_correction_level data e = .ok a4)
    (h5 : QrCode.with_version data v e = .ok a5)
    (h6 : QrCode.with_version data v e = .ok a6) :
    a1.to_colors = a2.to_colors ∧ a3.to_colors = a4.to_colors ∧
    a5.to_colors = a6.to_colors := by
  rw [h1] at h2
  injection h2 with h2
  rw [h3] at h4
  injection h4 with h4
  rw [h5] at h6
  injection h6 with h6
  subst h2
  subst h4
  subst h6
  exact ⟨rfl, rfl, rfl⟩

set_option maxHeartbeats 40000000 in
theorem c7_deterministic_witness :
    c7w_new.to_colors = c7w_new.to_colors ∧
    c7w_ecl.to_colors = c7w_ecl.to_colors ∧
    c7w_code.to_colors = c7w_code.to_colors := by
  have hn : QrCode.new [49] = .ok c7w_new := by decide
  have he : QrCode.with_error_correction_level [49] EcLevel.L =
      .ok c7w_ecl := by decide
  have hv : QrCode.with_version [49] (Version.micro 1) EcLevel.L =
      .ok c7w_code := by decide
  exact c7_deterministic [49] (Version.micro 1) EcLevel.L hn hn he he hv hv

set_option maxHeartbeats 120000000 in
/-- C8 (counterexample). The convenience printers do not give Normal codes
a quiet zone of 4: the 38-digit payload auto-selects Normal version 2, yet
the matrix `qr_print`/`qr_string` surround it with has margin
`QUIET_ZONE_WIDTH = 2`. -/
theorem c8_quiet_zone_counterexample :
    (Qr.from data38).map (fun q =>
      (q.code.version, (q.to_matrix.surround QUIET_ZONE_WIDTH).margin)) =
      .ok (Version.normal 2, 2) ∧ (2 : Nat) ≠ 4 :=
  ⟨by decide, by decide⟩

/-- C8 (amended). `QrCode::render` gives the renderer a quiet zone of 4
modules for Normal versions and 2 for Micro versions, but the convenience
printers `qr_print` and `qr_string` always surround the matrix with
`QUIET_ZONE_WIDTH = 2` modules, whatever the version. -/
theorem c8_quiet_zone_amended (c : QrCode) (data : List Nat) (q : Qr)
    (h : Qr.from data = .ok q) :
    c.render.quiet_zone = (if c.version.is_micro then 2 else 4) ∧
    qr_print data = .ok (q.to_matrix.surround QUIET_ZONE_WIDTH) ∧
    qr_string data = .ok (q.to_matrix.surround QUIET_ZONE_WIDTH) ∧
    (q.to_matrix.surround QUIET_ZONE_WIDTH).margin = QUIET_ZONE_WIDTH ∧
    QUIET_ZONE_WIDTH = 2 := by
  refine ⟨rfl, ?_, ?_, rfl, rfl⟩
  · unfold qr_print
    rw [h]
    rfl
  · unfold qr_string
    rw [h]
    rfl

set_option maxHeartbeats 40000000 in
theorem c8_quiet_zone_witness :
    (⟨[], Version.normal 1, EcLevel.M, 21⟩ : QrCode).render.quiet_zone = 4 ∧
    (⟨[], Version.micro 1, EcLevel.L, 11⟩ : QrCode).render.quiet_zone = 2 ∧
    qr_print [49] = .ok (c8w_qr.to_matrix.surround QUIET_ZONE_WIDTH) ∧
    qr_string [49] = .ok (c8w_qr.to_matrix.surround QUIET_ZONE_WIDTH) ∧
    (c8w_qr.to_matrix.surround QUIET_ZONE_WIDTH).margin = 2 := by
  have h0 : Qr.from [49] = .ok c8w_qr := by decide
  have ha := c8_quiet_zone_amended ⟨[], Version.normal 1, EcLevel.M, 21⟩
    [49] c8w_qr h0
  have hb := c8_quiet_zone_amended ⟨[], Version.micro 1, EcLevel.L, 11⟩
    [49] c8w_qr h0
  exact ⟨ha.1, hb.1, ha.2.1, ha.2.2.1, ha.2.2.2.1⟩

/-- C9. Indexing a QrCode whose module vector has `width²` entries by
`(x, y)` reads flat position `y*width + x` (row-major): the `x` coordinate
is never checked against the width, so the read succeeds whenever the flat
position is under `width²` — for `x ≥ width` it aliases a position in a
strictly later row instead of failing — and it fails (the vector-indexing
panic, modelled as `none`) exactly when the flat position reaches
`width²`. -/
theorem c9_index_unchecked (c : QrCode) (x y : Nat)
    (hw : c.content.length = c.width * c.width) :
    c.indexAt x y = c.content.get? (y * c.width + x) ∧
    (y * c.width + x < c.width * c.width → (c.indexAt x y).isSome = true) ∧
    (c.width * c.width ≤ y * c.width + x → c.indexAt x y = none) ∧
    (c.width ≤ x → y * c.width + x < c.width * c.width →
      c.indexAt x y =
        c.indexAt ((y * c.width + x) % c.width)
          ((y * c.width + x) / c.width) ∧
      y < (y * c.width + x) / c.width) := by
  refine ⟨rfl, ?_, ?_, ?_⟩
  · intro hlt
    have hlt2 : y * c.width + x < c.content.length := by
      rw [hw]
      exact hlt
    cases hg : c.content.get? (y * c.width + x) with
    | none =>
      rw [List.get?_eq_none] at hg
      omega
    | some a =>
      unfold QrCode.indexAt
      rw [hg]
      rfl
  · intro hge
    unfold QrCode.indexAt
    refine List.get?_eq_none.mpr ?_
    rw [hw]
    exact hge
  · intro hx hlt
    have hw0 : 0 < c.width := by
      rcases Nat.eq_zero_or_pos c.width with h0 | h0
      · rw [h0, Nat.mul_zero, Nat.zero_mul] at hlt
        omega
      · exact h0
    have hdiv : (y * c.width + x) / c.width = y + x / c.width := by
      rw [Nat.mul_comm y c.width, Nat.mul_add_div hw0]
    have hxd : 1 ≤ x / c.width := (Nat.one_le_div_iff hw0).mpr hx
    constructor
    · show c.content.get? (y * c.width + x) = c.content.get?
        ((y * c.width + x) / c.width * c.width + (y * c.width + x) % c.width)
      rw [Nat.div_add_mod']
    · rw [hdiv]
      omega

theorem c9_index_unchecked_witness :
    c9sample.indexAt 2 0 = c9sample.content.get? (0 * c9sample.width + 2) ∧
    (c9sample.indexAt 2 0).isSome = true ∧
    c9sample.indexAt 2 0 =
      c9sample.indexAt ((0 * c9sample.width + 2) % c9sample.width)
        ((0 * c9sample.width + 2) / c9sample.width) ∧
    0 < (0 * c9sample.width + 2) / c9sample.width := by
  have h := c9_index_unchecked c9sample 2 0 (by decide)
  refine ⟨h.1, h.2.1 (by decide), ?_, ?_⟩
  · exact (h.2.2.2 (by decide) (by decide)).1
  · exact (h.2.2.2 (by decide) (by decide)).2

/-- C10. `qr_svg` ignores its input for version selection: whenever it
returns a renderer the code was built by `with_version` at Normal version
5, EC level M (so its width is the fixed 37), and whenever that fixed-
version encoding fails — for example when the data exceeds the version
5-M capacity — `qr_svg` panics via the unwrap (modelled as `none`) instead
of returning the error through its result type. -/
theorem c10_svg_fixed_version (data : List Nat) :
    (∀ r, qr_svg data = some r →
      ∃ c, QrCode.with_version data (Version.normal 5) EcLevel.M = .ok c ∧
        r = .ok c.render ∧ c.version = Version.normal 5 ∧ c.width = 37) ∧
    (∀ err, QrCode.with_version data (Version.normal 5) EcLevel.M =
      .error err → qr_svg data = none) := by
  constructor
  · intro r hr
    unfold qr_svg at hr
    cases hv : QrCode.with_version data (Version.normal 5) EcLevel.M with
    | error err =>
      rw [hv] at hr
      exact Option.noConfusion hr
    | ok c =>
      rw [hv] at hr
      have hr2 : some (Except.ok c.render : Except QrError Renderer) =
        some r := hr
      injection hr2 with hr2
      obtain ⟨hver, _, hwid, _⟩ := QrCode.with_version_shape hv
      refine ⟨c, rfl, hr2.symm, hver, ?_⟩
      rw [hwid]
      rfl
  · intro err herr
    unfold qr_svg
    rw [herr]

theorem c10_svg_fixed_version_witness :
    qr_svg c10LongData = none :=
  (c10_svg_fixed_version c10LongData).2 QrError.dataTooLong (by decide)

end QrSpec
